import Mathlib

/-!
atlants DATA_preprocessing: shallow embedding of the preprocessing core and of
the shared-memory feature output.

Sources embedded here:

* `preprocess-daemon/include/data_structure.h`
* `preprocess-daemon/include/shm_wrt_buf.h`
* `preprocess-daemon/src/supported_feature_output/shm_wrt_buf.c`
* `preprocess-daemon/src/preprocess_core.c`

Conventions of the embedding.

* A C `int` is a Lean `Int` holding the mathematical value of the expression.
  Signed overflow is undefined in C, so the embedding describes the runs in
  which no `int` expression leaves its range.  C division and remainder
  truncate toward zero: they are `Int.tdiv` and `Int.tmod`.
* Arithmetic that C carries out in `size_t` is defined behaviour and is taken
  modulo `2^64` (`to_size_t`); a `size_t` value stored in an `int` keeps its
  low 32 bits, read in two's complement (`to_int`).  This is the case of the
  page size that `shm_wrt_init` computes and of the length of the feature copy
  of `shm_wrt_write_to_buf`.
* `unsigned char nb_blink_samples` wraps: its increment is taken `% 256`.
* A `double` is a rational number: arithmetic is exact, rounding is not
  modelled.  The only use the blink detector makes of a sample is the
  comparison with the threshold.
* A pointer to a buffer is the function from the (signed) element offset to
  the element stored there, so that a read or a write outside the allocated
  block is visible instead of being lost.  A buffer of bytes has cells in
  `Int`, a buffer of doubles has cells in `ℚ`.
* File-scope `static` variables become fields of a state record that every
  function receives and returns.
* A loop `for (i = 0; i < n; i++)` is a left fold over `0, 1, .., n-1`; the two
  loops whose trip count is not a plain bound (`while` of the blink scan, the
  carry `for`) recurse on a fuel argument, and the caller passes a fuel that
  is shown to suffice.
* The other processes act on a publisher through the semaphore set only: in a
  run their activity is an event that replaces the counts.  The effects of one
  write are listed in the order of the statements of the function; what a
  compiler or the hardware may reorder is not modelled.
-/

namespace DataPreprocessing

/-! ## C library and kernel primitives -/

/-- Value of `EXIT_SUCCESS` in `stdlib.h`. -/
def EXIT_SUCCESS : Int := 0

/-- Value of `EXIT_FAILURE` in `stdlib.h`. -/
def EXIT_FAILURE : Int := 1

/-- Value of `IPC_NOWAIT` in `sys/ipc.h` (octal 04000). -/
def IPC_NOWAIT : Int := 2048

/-- Value of `SEM_UNDO` in `sys/sem.h` (hexadecimal 0x1000). -/
def SEM_UNDO : Int := 4096

/-- Largest count of a semaphore of the kernel (`SEMVMX`, 32767 on Linux). -/
def SEMVMX : Int := 32767

/-- Largest adjust-on-exit value of the kernel (`SEMAEM`, 32767 on Linux). -/
def SEMAEM : Int := 32767

/-- Value of `INT_MAX` in `limits.h`, for an `int` of 32 bits. -/
def INT_MAX : Int := 2147483647

/-- Conversion of an integer value to `size_t` (64 bits): the value modulo
`2^64`. -/
def to_size_t (x : Int) : Int := x % 18446744073709551616

/-- Conversion of an integer value to `int` (32 bits): the low 32 bits, read in
two's complement. -/
def to_int (x : Int) : Int :=
  if x % 4294967296 < 2147483648 then x % 4294967296 else x % 4294967296 - 4294967296

/-- Loop `for (i = 0; i < n; i++) s = body(i, s);`. -/
def for_loop {σ : Type} (n : Int) (body : Int → σ → σ) (s : σ) : σ :=
  (List.range n.toNat).foldl (fun acc (i : Nat) => body (i : Int) acc) s

/-- Effect of `memcpy(&dst[dst_off], src, n)` on the destination buffer: the
cells `dst_off .. dst_off + n - 1` receive `src[0] .. src[n-1]`, every other
cell keeps its value.  The length `n` is the `size_t` value that the caller
passes. -/
def memcpy {cell : Type} (dst : Int → cell) (dst_off : Int) (src : Int → cell) (n : Int) :
    Int → cell :=
  fun a => if dst_off ≤ a ∧ a < dst_off + n then src (a - dst_off) else dst a

/-- Store `mem[idx] = v`. -/
def store {cell : Type} (mem : Int → cell) (idx : Int) (v : cell) : Int → cell :=
  Function.update mem idx v

/-- Apply a sequence of stores, first to last. -/
def apply_stores {cell : Type} (mem : Int → cell) (stores : List (Int × cell)) : Int → cell :=
  stores.foldl (fun m s => store m s.1 s.2) mem

/-! ## data_structure.h -/

/-- Record `frame_info_t`: one `char`. -/
structure frame_info_t where
  eye_blink_detected : Int
deriving DecidableEq

/-- Size in bytes of `frame_info_t` (a struct holding a single `char`). -/
def sizeof_frame_info_t : Int := 1

/-- Size in bytes of a `double`. -/
def sizeof_double : Int := 8

/-- Bytes of a `frame_info_t` object, by offset from its address; only offset 0
lies in the object. -/
def frame_info_bytes (fs : frame_info_t) : Int → Int :=
  fun _ => fs.eye_blink_detected

/-- Record `feature_buf_t`.  `featvect_ptr` is the block the pointer designates,
seen as cells of type `cell`: bytes for the publisher, doubles for the
preprocessing core (which casts the pointer to `double*`). -/
structure feature_buf_t (cell : Type) where
  frame_status : frame_info_t
  nb_features : Int
  featvect_ptr : Int → cell

/-- Record `data_t`, with the block behind `ptr` seen as doubles. -/
structure data_t where
  ptr : Int → ℚ
  nb_data : Int

/-! ## shm_wrt_buf.h -/

/-- Number of semaphores in the set. -/
def NB_SEM : Int := 6

/-- Semaphore posted when the preprocessing has written a feature vector. -/
def PREPROC_OUT_READY : Int := 2

/-- Semaphore posted when the application is ready for a new feature vector. -/
def APP_IN_READY : Int := 3

/-- Record `shm_output_options_t`. -/
structure shm_output_options_t where
  shm_key : Int
  sem_key : Int
  frame_status_size : Int
  nb_features : Int
  buffer_depth : Int
deriving DecidableEq

/-! ## shm_wrt_buf.c -/

/-- Record `struct sembuf` of `sys/sem.h`. -/
structure sembuf where
  sem_num : Int
  sem_op : Int
  sem_flg : Int
deriving DecidableEq

/-- Record `shm_output_t`.  `shm_buf` is the attached segment, byte by byte;
`sem_set` is the kernel's semaphore set that `semid` names, count by index;
`sem_adj` is the adjust-on-exit value that the kernel keeps for the calling
process and each semaphore of the set (what `SEM_UNDO` operations add up to). -/
structure shm_output_t where
  options : shm_output_options_t
  shmid : Int
  shm_buf : Int → Int
  page_size : Int
  total_buffer_size : Int
  current_page : Int
  semid : Int
  sops : sembuf
  sem_set : Int → Int
  sem_adj : Int → Int

/-- System call `semop(semid, sops, 1)` for one operation carrying `IPC_NOWAIT`,
on a valid set of `NB_SEM` semaphores: result, new counts and new
adjust-on-exit values of the calling process.  An index outside the set fails
(`EFBIG`).  A positive `sem_op` is added to the count, unless the count would
pass `SEMVMX` (`ERANGE`).  `sem_op = 0` succeeds when the count is zero.  A
negative `sem_op` is subtracted when the count is at least its absolute value,
and otherwise the call fails at once (`EAGAIN`).  When `sem_flg` carries
`SEM_UNDO` the adjust-on-exit value of the semaphore is lowered by `sem_op`,
and the call fails (`ERANGE`) when that value would leave
`-SEMAEM - 1 .. SEMAEM`.  A failed call changes nothing. -/
def semop (sem_set sem_adj : Int → Int) (sops : sembuf) :
    Int × (Int → Int) × (Int → Int) :=
  let undo := sem_adj sops.sem_num - sops.sem_op
  let done : Int × (Int → Int) × (Int → Int) :=
    if (sops.sem_flg / SEM_UNDO) % 2 = 1 then
      if undo < -SEMAEM - 1 ∨ SEMAEM < undo then (-1, sem_set, sem_adj)
      else
        (0, Function.update sem_set sops.sem_num (sem_set sops.sem_num + sops.sem_op),
          Function.update sem_adj sops.sem_num undo)
    else
      (0, Function.update sem_set sops.sem_num (sem_set sops.sem_num + sops.sem_op), sem_adj)
  if sops.sem_num < 0 ∨ NB_SEM ≤ sops.sem_num then (-1, sem_set, sem_adj)
  else if 0 < sops.sem_op then
    (if SEMVMX < sem_set sops.sem_num + sops.sem_op then (-1, sem_set, sem_adj) else done)
  else if sops.sem_op = 0 then
    (if sem_set sops.sem_num = 0 then (0, sem_set, sem_adj) else (-1, sem_set, sem_adj))
  else if -sops.sem_op ≤ sem_set sops.sem_num then done
  else (-1, sem_set, sem_adj)

/-- What the kernel and the allocator hand to `shm_wrt_init`: the results of
`shmget`, `shmat` and `semget`, the bytes found in the attached segment, the
counts of the semaphore set, the adjust-on-exit values of the process for the
set, and the indeterminate content of the freshly allocated `sembuf`. -/
structure ipc_env where
  shmget_ret : Int
  shmat_failed : Bool
  segment : Int → Int
  semget_ret : Int
  sem_set : Int → Int
  sem_adj : Int → Int
  sops : sembuf

/-- Page size that `shm_wrt_init` computes:
`options.nb_features*sizeof(double) + options.frame_status_size`, evaluated in
`size_t` (the type of `sizeof`) and stored in the `int` field `page_size`. -/
def shm_page_size (options : shm_output_options_t) : Int :=
  to_int (to_size_t (to_size_t (to_size_t options.nb_features * sizeof_double) +
    to_size_t options.frame_status_size))

/-- Function `shm_wrt_init`: `none` stands for the `NULL` result. -/
def shm_wrt_init (options : shm_output_options_t) (env : ipc_env) : Option shm_output_t :=
  let page_size := shm_page_size options
  let total_buffer_size := page_size * options.buffer_depth
  if env.shmget_ret < 0 then none
  else if env.shmat_failed then none
  else if env.semget_ret = -1 then none
  else some
    { options := options
      shmid := env.shmget_ret
      shm_buf := env.segment
      page_size := page_size
      total_buffer_size := total_buffer_size
      current_page := 0
      semid := env.semget_ret
      sops := env.sops
      sem_set := env.sem_set
      sem_adj := env.sem_adj }

/-- Function `shm_wrt_write_to_buf`: returned value and publisher afterwards.
The length of the feature copy, `feat_vect->nb_features*sizeof(double)`, is
evaluated in `size_t`.  The `int` offset `write_ptr` is advanced by
`sizeof(frame_info_t)`: the sum leaves the range of an `int` only from
`INT_MAX`, an offset at which the copy of the status is already past every
segment (the size of a segment is an `int`).  The result of the second `semop`
is ignored, as in the source.  With `buffer_depth = 0` the C remainder is a
division by zero; `Int.tmod` then gives back the dividend. -/
def shm_wrt_write_to_buf (this_shm : shm_output_t) (feat_vect : feature_buf_t Int) :
    Int × shm_output_t :=
  let sops1 : sembuf := { sem_num := APP_IN_READY, sem_op := -1, sem_flg := IPC_NOWAIT }
  let r1 := semop this_shm.sem_set this_shm.sem_adj sops1
  if r1.1 = 0 then
    let write_ptr := this_shm.page_size * this_shm.current_page
    let buf1 := memcpy this_shm.shm_buf write_ptr (frame_info_bytes feat_vect.frame_status)
      sizeof_frame_info_t
    let write_ptr2 := write_ptr + sizeof_frame_info_t
    let buf2 := memcpy buf1 write_ptr2 feat_vect.featvect_ptr
      (to_size_t (to_size_t feat_vect.nb_features * sizeof_double))
    let page1 := this_shm.current_page + 1
    let page2 := page1.tmod this_shm.options.buffer_depth
    let sops2 : sembuf :=
      { sem_num := PREPROC_OUT_READY, sem_op := 1, sem_flg := Int.lor SEM_UNDO IPC_NOWAIT }
    let r2 := semop r1.2.1 r1.2.2 sops2
    (EXIT_SUCCESS,
      { this_shm with
        shm_buf := buf2, current_page := page2, sops := sops2, sem_set := r2.2.1,
        sem_adj := r2.2.2 })
  else
    (EXIT_SUCCESS, { this_shm with sops := sops1, sem_set := r1.2.1, sem_adj := r1.2.2 })

/-- The kernel accepts the post that `shm_wrt_write_to_buf` makes on the
output-ready semaphore: the count stays at most `SEMVMX` and the
adjust-on-exit value of the process, lowered by 1, stays in
`-SEMAEM - 1 .. SEMAEM`. -/
def post_accepted (sem_set sem_adj : Int → Int) : Prop :=
  sem_set PREPROC_OUT_READY + 1 ≤ SEMVMX ∧
  -SEMAEM - 1 ≤ sem_adj PREPROC_OUT_READY - 1 ∧ sem_adj PREPROC_OUT_READY - 1 ≤ SEMAEM

instance (sem_set sem_adj : Int → Int) : Decidable (post_accepted sem_set sem_adj) := by
  unfold post_accepted
  infer_instance

/-- Detection count threshold of the eye blink detector. -/
def COUNT_THRESHOLD : Nat := 2

/-- Signal threshold of the eye blink detector. -/
def SIGNAL_THRESHOLD : ℚ := -90

/-- First channel watched by the eye blink detector. -/
def CHAN_1 : Int := 0

/-- Second channel watched by the eye blink detector. -/
def CHAN_4 : Int := 3

/-- Modelled from the spec: the record `appconfig_t` is declared in `xml.h`,
which is not among the sources.  Its fields are the ones `init_preprocess_core`
reads: the channel count, the window width, and one switch per feature kind
of the configuration (timeseries, spectral, alpha, beta, gamma, blink). -/
structure appconfig_t where
  nb_channels : Int
  window_width : Int
  timeseries : Bool
  fft : Bool
  power_alpha : Bool
  power_beta : Bool
  power_gamma : Bool
  muse_eyeblink_detect : Bool
deriving DecidableEq

/-- File-scope variables of `preprocess_core.c`. -/
structure preprocess_core_t where
  next_frame_has_blink : Int
  eye_blink_length : Int
  nb_channels : Int
  nb_samples : Int
  feature_vect_length : Int
  timeseries_enabled : Bool
  fft_enabled : Bool
  alpha_pwr_enabled : Bool
  beta_pwr_enabled : Bool
  gamma_pwr_enabled : Bool
  eye_blink_detect : Bool
  signals_avg_vector : Int → ℚ
  signals_wo_avg : Int → ℚ
  signals_transposed : Int → ℚ
  dft_vector : Int → ℚ

/-- Values of the file-scope variables when the program starts. -/
def preprocess_core_start : preprocess_core_t :=
  { next_frame_has_blink := 0
    eye_blink_length := 0
    nb_channels := 0
    nb_samples := 0
    feature_vect_length := 0
    timeseries_enabled := false
    fft_enabled := false
    alpha_pwr_enabled := false
    beta_pwr_enabled := false
    gamma_pwr_enabled := false
    eye_blink_detect := false
    signals_avg_vector := fun _ => 0
    signals_wo_avg := fun _ => 0
    signals_transposed := fun _ => 0
    dft_vector := fun _ => 0 }

/-- Function `init_preprocess_core`.  The four last arguments are the
(indeterminate) contents of the four blocks that `malloc` returns. -/
def init_preprocess_core (config : appconfig_t) (st : preprocess_core_t)
    (m_avg m_wo_avg m_transposed m_dft : Int → ℚ) : Int × preprocess_core_t :=
  let len0 : Int := 0
  let len1 := if config.timeseries then len0 + config.window_width * config.nb_channels else len0
  let len2 := if config.fft then len1 + (config.window_width.tdiv 2) * config.nb_channels else len1
  let len3 := if config.power_alpha then len2 + config.nb_channels else len2
  let len4 := if config.power_beta then len3 + config.nb_channels else len3
  let len5 := if config.power_gamma then len4 + config.nb_channels else len4
  (EXIT_SUCCESS,
    { next_frame_has_blink := st.next_frame_has_blink
      eye_blink_length := 100
      nb_channels := config.nb_channels
      nb_samples := config.window_width
      feature_vect_length := len5
      timeseries_enabled := if config.timeseries then true else st.timeseries_enabled
      fft_enabled := if config.fft then true else st.fft_enabled
      alpha_pwr_enabled := if config.power_alpha then true else st.alpha_pwr_enabled
      beta_pwr_enabled := if config.power_beta then true else st.beta_pwr_enabled
      gamma_pwr_enabled := if config.power_gamma then true else st.gamma_pwr_enabled
      eye_blink_detect := config.muse_eyeblink_detect
      signals_avg_vector := m_avg
      signals_wo_avg := m_wo_avg
      signals_transposed := m_transposed
      dft_vector := m_dft })

/-- Function `remove_mean_col`: the content of `b` afterwards. -/
def remove_mean_col (a mean b : Int → ℚ) (dim_i dim_j : Int) : Int → ℚ :=
  for_loop dim_i (fun i b1 =>
    for_loop dim_j (fun j b2 => store b2 (i * dim_j + j) (a (i * dim_j + j) - mean j)) b1) b

/-- Function `stat_mean`: the content of `mean` afterwards. -/
def stat_mean (a mean : Int → ℚ) (dim_i dim_j : Int) : Int → ℚ :=
  let mean0 := for_loop dim_j (fun j m => store m j 0) mean
  let mean1 := for_loop dim_i (fun i m1 =>
    let n := i * dim_j
    for_loop dim_j (fun j m2 => store m2 j (m2 j + a (j + n))) m1) mean0
  for_loop dim_j (fun j m => store m j (m j / (dim_i : ℚ))) mean1

/-- Function `mtx_transpose`: the content of `A_prime` afterwards. -/
def mtx_transpose (A A_prime : Int → ℚ) (dim_i dim_j : Int) : Int → ℚ :=
  for_loop dim_i (fun i b1 =>
    for_loop dim_j (fun j b2 => store b2 (j * dim_i + i) (A (i * dim_j + j))) b1) A_prime

/-- Local variables of `has_eye_blink` that the scanning loop updates. -/
structure blink_scan_t where
  blink_onset_found : Bool
  onset_timestamp : Int
  nb_blink_samples : Nat
  time_iter : Int
deriving DecidableEq

/-- One of the two tests in the body of the scanning loop, for channel `chan`. -/
def blink_scan_chan (signal : Int → ℚ) (dim_j chan : Int) (s : blink_scan_t) : blink_scan_t :=
  if signal (dim_j * s.time_iter + chan) < SIGNAL_THRESHOLD then
    { s with
      onset_timestamp := if s.blink_onset_found then s.onset_timestamp else s.time_iter
      blink_onset_found := true
      nb_blink_samples := (s.nb_blink_samples + 1) % 256 }
  else s

/-- Body of the scanning loop of `has_eye_blink`. -/
def blink_scan_body (signal : Int → ℚ) (dim_j : Int) (s : blink_scan_t) : blink_scan_t :=
  let s1 := blink_scan_chan signal dim_j CHAN_1 s
  let s2 := blink_scan_chan signal dim_j CHAN_4 s1
  { s2 with time_iter := s2.time_iter + 1 }

/-- Scanning loop `while (nb_blink_samples < COUNT_THRESHOLD && time_iter < dim_i)`
of `has_eye_blink`, run for at most `fuel` iterations. -/
def blink_scan (signal : Int → ℚ) (dim_i dim_j : Int) : Nat → blink_scan_t → blink_scan_t
  | 0, s => s
  | fuel + 1, s =>
    if s.nb_blink_samples < COUNT_THRESHOLD ∧ s.time_iter < dim_i then
      blink_scan signal dim_i dim_j fuel (blink_scan_body signal dim_j s)
    else s

/-- Loop `for (time_iter = t0; time_iter > 0; time_iter -= nb_samples)
next_frame_has_blink++;` of `has_eye_blink`, run for at most `fuel`
iterations: the final `next_frame_has_blink`, or `none` when the loop has not
finished. -/
def blink_carry : Nat → Int → Int → Int → Option Int
  | 0, time_iter, _, next_frame_has_blink =>
    if 0 < time_iter then none else some next_frame_has_blink
  | fuel + 1, time_iter, nb_samples, next_frame_has_blink =>
    if 0 < time_iter then
      blink_carry fuel (time_iter - nb_samples) nb_samples (next_frame_has_blink + 1)
    else some next_frame_has_blink

/-- Function `has_eye_blink`: the returned flag and the file-scope variables
afterwards; `none` when the carry loop does not terminate.  The scanning loop
gets `dim_i` iterations of fuel and the carry loop as many as the start value
of its counter. -/
def has_eye_blink (st : preprocess_core_t) (signal : Int → ℚ) (dim_i dim_j : Int) :
    Option (Int × preprocess_core_t) :=
  if st.next_frame_has_blink = 0 then
    let s := blink_scan signal dim_i dim_j dim_i.toNat
      { blink_onset_found := false, onset_timestamp := 0, nb_blink_samples := 0, time_iter := 0 }
    if s.blink_onset_found then
      let t0 := st.eye_blink_length - (st.nb_samples - s.onset_timestamp)
      match blink_carry t0.toNat t0 st.nb_samples st.next_frame_has_blink with
      | some n => some (1, { st with next_frame_has_blink := n })
      | none => none
    else some (0, st)
  else
    some (1, { st with next_frame_has_blink := st.next_frame_has_blink - 1 })

/-- Stores of the copy loop `for (j = 0; j < nb_samples/2; j++)` of
`preprocess_data` for channel `i`, in program order: index and value. -/
def fft_copy_stores (dft_vector : Int → ℚ) (i nb_samples offset : Int) : List (Int × ℚ) :=
  (List.range (nb_samples.tdiv 2).toNat).map
    (fun (j : Nat) => ((i * nb_samples).tdiv 2 + (j : Int) + offset, dft_vector (j : Int)))

/-- Loop over the channels of the spectral branch of `preprocess_data`: the
content of `dft_vector` afterwards and the stores made to `features_array`, in
program order.  `abs_dft_interval signal n interval_start interval_stop` is
the content of the output block of the transform primitive of `fft.h` after
its call on the series `signal`. -/
def fft_loop (abs_dft_interval : (Int → ℚ) → Int → Int → Int → (Int → ℚ))
    (signals_transposed : Int → ℚ) (nb_channels nb_samples offset : Int)
    (dft_vector : Int → ℚ) : (Int → ℚ) × List (Int × ℚ) :=
  for_loop nb_channels (fun i acc =>
    let dft1 := abs_dft_interval (fun t => signals_transposed (i * nb_samples + t))
      nb_samples 0 (nb_samples.tdiv 2)
    (dft1, acc.2 ++ fft_copy_stores dft1 i nb_samples offset)) (dft_vector, [])

/-- Stores that one call of `preprocess_data` makes to `features_array`, in
program order. -/
def preprocess_stores (abs_dft_interval : (Int → ℚ) → Int → Int → Int → (Int → ℚ))
    (st : preprocess_core_t) (data_input : data_t) : List (Int × ℚ) :=
  let offset : Int := 0
  let avg1 := stat_mean data_input.ptr st.signals_avg_vector st.nb_samples st.nb_channels
  let wo_avg := remove_mean_col data_input.ptr avg1 st.signals_wo_avg st.nb_samples st.nb_channels
  let transposed := mtx_transpose wo_avg st.signals_transposed st.nb_samples st.nb_channels
  if st.fft_enabled then
    (fft_loop abs_dft_interval transposed st.nb_channels st.nb_samples offset st.dft_vector).2
  else []

/-- File-scope variables after the numeric part of `preprocess_data` (the
statements from the first `stat_mean` to the end of the spectral branch): the
four work buffers are overwritten, nothing else changes. -/
def preprocess_buffers (abs_dft_interval : (Int → ℚ) → Int → Int → Int → (Int → ℚ))
    (st : preprocess_core_t) (data_input : data_t) : preprocess_core_t :=
  let offset : Int := 0
  let avg1 := stat_mean data_input.ptr st.signals_avg_vector st.nb_samples st.nb_channels
  let wo_avg := remove_mean_col data_input.ptr avg1 st.signals_wo_avg st.nb_samples st.nb_channels
  let avg2 := stat_mean wo_avg avg1 st.nb_samples st.nb_channels
  let transposed := mtx_transpose wo_avg st.signals_transposed st.nb_samples st.nb_channels
  let dft1 :=
    if st.fft_enabled then
      (fft_loop abs_dft_interval transposed st.nb_channels st.nb_samples offset st.dft_vector).1
    else st.dft_vector
  { st with
    signals_avg_vector := avg2
    signals_wo_avg := wo_avg
    signals_transposed := transposed
    dft_vector := dft1 }

/-- Function `preprocess_data`: the returned value, the file-scope variables
and the output record afterwards; `none` when `has_eye_blink` does not
return.  The frame status is zeroed first (`memset`), the numeric part is
`preprocess_buffers` and `preprocess_stores`, the blink test comes last. -/
def preprocess_data (abs_dft_interval : (Int → ℚ) → Int → Int → Int → (Int → ℚ))
    (st : preprocess_core_t) (data_input : data_t) (feature_output : feature_buf_t ℚ) :
    Option (Int × preprocess_core_t × feature_buf_t ℚ) :=
  let st1 := preprocess_buffers abs_dft_interval st data_input
  let features_array :=
    apply_stores feature_output.featvect_ptr (preprocess_stores abs_dft_interval st data_input)
  if st.eye_blink_detect then
    match has_eye_blink st1 st1.signals_wo_avg st.nb_samples st.nb_channels with
    | some (flag, st2) =>
      some (EXIT_SUCCESS, st2,
        { feature_output with
          frame_status := { eye_blink_detected := flag }
          featvect_ptr := features_array })
    | none => none
  else
    some (EXIT_SUCCESS, st1,
      { feature_output with
        frame_status := { eye_blink_detected := 0 }
        featvect_ptr := features_array })

/-- Successive calls of `has_eye_blink`, one per window of the list (each
with its `dim_i` and `dim_j`): the flags returned, in order, and the
file-scope variables after the last call. -/
def has_eye_blink_seq (st : preprocess_core_t) :
    List ((Int → ℚ) × Int × Int) → Option (List Int × preprocess_core_t)
  | [] => some ([], st)
  | w :: ws =>
    match has_eye_blink st w.1 w.2.1 w.2.2 with
    | some (flag, st1) =>
      match has_eye_blink_seq st1 ws with
      | some (flags, st2) => some (flag :: flags, st2)
      | none => none
    | none => none

/-! ## Vocabulary of the claims on the blink detector, and loop invariant -/

/-- Sample `t` of the window is below the threshold on one of the two watched
channels. -/
def below_threshold (signal : Int → ℚ) (dim_j t : Int) : Prop :=
  signal (dim_j * t + CHAN_1) < SIGNAL_THRESHOLD ∨ signal (dim_j * t + CHAN_4) < SIGNAL_THRESHOLD

instance (signal : Int → ℚ) (dim_j t : Int) : Decidable (below_threshold signal dim_j t) := by
  unfold below_threshold
  infer_instance

/-- Number of below-threshold occurrences at sample `t`, each of the two
watched channels counted separately. -/
def occurrences_at (signal : Int → ℚ) (dim_j t : Int) : Nat :=
  (if signal (dim_j * t + CHAN_1) < SIGNAL_THRESHOLD then 1 else 0) +
  (if signal (dim_j * t + CHAN_4) < SIGNAL_THRESHOLD then 1 else 0)

/-- Number of below-threshold occurrences in the `dim_i` samples of the window. -/
def occurrences (signal : Int → ℚ) (dim_i dim_j : Int) : Nat :=
  ((List.range dim_i.toNat).map (fun (t : Nat) => occurrences_at signal dim_j (t : Int))).sum

/-- Number of carry-over frames for `remaining` samples of blink left after the
window: `ceil (remaining / nb_samples)` when `remaining` is positive, 0
otherwise. -/
def carry_frames (remaining nb_samples : Int) : Int :=
  if 0 < remaining then (remaining + nb_samples - 1) / nb_samples else 0

/-- Invariant of the scanning loop of `has_eye_blink`: the samples before
`time_iter` have been looked at, the onset flag is set as soon as one
occurrence was counted, and when it is set `onset_timestamp` is the first
sample below the threshold. -/
def scan_inv (signal : Int → ℚ) (dim_j : Int) (s : blink_scan_t) : Prop :=
  0 ≤ s.time_iter ∧
  (0 < s.nb_blink_samples → s.blink_onset_found = true) ∧
  (s.blink_onset_found = true →
    0 ≤ s.onset_timestamp ∧ s.onset_timestamp < s.time_iter ∧
    below_threshold signal dim_j s.onset_timestamp ∧
    ∀ t : Int, 0 ≤ t → t < s.onset_timestamp → ¬ below_threshold signal dim_j t) ∧
  (s.blink_onset_found = false →
    ∀ t : Int, 0 ≤ t → t < s.time_iter → ¬ below_threshold signal dim_j t)

/-- Stores of the spectral branch for the channels `0 .. n-1`, in program order. -/
def fft_stores_upto (abs_dft_interval : (Int → ℚ) → Int → Int → Int → (Int → ℚ))
    (signals_transposed : Int → ℚ) (nb_samples offset : Int) : Nat → List (Int × ℚ)
  | 0 => []
  | n + 1 =>
    fft_stores_upto abs_dft_interval signals_transposed nb_samples offset n ++
      fft_copy_stores
        (abs_dft_interval (fun t => signals_transposed ((n : Int) * nb_samples + t)) nb_samples 0
          (nb_samples.tdiv 2))
        (n : Int) nb_samples offset

/-! ## Runs of the publisher, effects of a write, reads of the blink scan -/

/-- What happens to a publisher between two observations: a call of
`shm_wrt_write_to_buf` by the owning process, or activity of the other
processes on the semaphore set, which leaves it with the counts `sem_set`. -/
inductive publisher_event where
  | write (feat_vect : feature_buf_t Int)
  | sem_activity (sem_set : Int → Int)

/-- Publisher after one event. -/
def publisher_step (st : shm_output_t) : publisher_event → shm_output_t
  | .write feat_vect => (shm_wrt_write_to_buf st feat_vect).2
  | .sem_activity sem_set => { st with sem_set := sem_set }

/-- Publisher after a sequence of events, first to last. -/
def publisher_run (st : shm_output_t) (events : List publisher_event) : shm_output_t :=
  events.foldl publisher_step st

/-- Number of calls of `shm_wrt_write_to_buf` in the run whose try-acquire
succeeds. -/
def writes_done (st : shm_output_t) : List publisher_event → Nat
  | [] => 0
  | .write feat_vect :: events =>
    (if 1 ≤ st.sem_set APP_IN_READY then 1 else 0) +
      writes_done (publisher_step st (.write feat_vect)) events
  | .sem_activity sem_set :: events =>
    writes_done (publisher_step st (.sem_activity sem_set)) events

/-- The state `st` is a publisher of `options`: `shm_wrt_init options` returned
it or it comes from such a publisher by a sequence of events. -/
def is_publisher (options : shm_output_options_t) (st : shm_output_t) : Prop :=
  ∃ (env : ipc_env) (st0 : shm_output_t) (events : List publisher_event),
    shm_wrt_init options env = some st0 ∧ st = publisher_run st0 events

/-- Invariant of a publisher of `options`: the options and the two sizes are
those of `shm_wrt_init`, and the write cursor designates a page. -/
def publisher_inv (options : shm_output_options_t) (st : shm_output_t) : Prop :=
  st.options = options ∧
  st.page_size = shm_page_size options ∧
  st.total_buffer_size = st.page_size * options.buffer_depth ∧
  0 ≤ st.current_page ∧ st.current_page < options.buffer_depth

/-- One effect of `shm_wrt_write_to_buf` on the publisher: a `semop` call with
the `sembuf` just filled, a `memcpy` into the segment, an assignment to
`current_page`. -/
inductive write_effect where
  | sem_call (sops : sembuf)
  | copy (dst_off : Int) (src : Int → Int) (n : Int)
  | set_page (page : Int)

/-- Publisher after one effect. -/
def apply_write_effect (st : shm_output_t) : write_effect → shm_output_t
  | .sem_call sops =>
    { st with
      sops := sops
      sem_set := (semop st.sem_set st.sem_adj sops).2.1
      sem_adj := (semop st.sem_set st.sem_adj sops).2.2 }
  | .copy dst_off src n => { st with shm_buf := memcpy st.shm_buf dst_off src n }
  | .set_page page => { st with current_page := page }

/-- The effect is a post (an increment) of the output-ready semaphore. -/
def is_post : write_effect → Prop
  | .sem_call sops => sops.sem_num = PREPROC_OUT_READY ∧ 0 < sops.sem_op
  | _ => False

/-- The effect is a copy into the segment. -/
def is_copy : write_effect → Prop
  | .copy _ _ _ => True
  | _ => False

/-- Effects of one call of `shm_wrt_write_to_buf`, in the order of the
statements of the function: the try-acquire, then, when it succeeded, the copy
of the frame status, the copy of the feature array, the two assignments to
`current_page` and the post. -/
def shm_wrt_write_effects (this_shm : shm_output_t) (feat_vect : feature_buf_t Int) :
    List write_effect :=
  let sops1 : sembuf := { sem_num := APP_IN_READY, sem_op := -1, sem_flg := IPC_NOWAIT }
  if (semop this_shm.sem_set this_shm.sem_adj sops1).1 = 0 then
    let write_ptr := this_shm.page_size * this_shm.current_page
    [ .sem_call sops1,
      .copy write_ptr (frame_info_bytes feat_vect.frame_status) sizeof_frame_info_t,
      .copy (write_ptr + sizeof_frame_info_t) feat_vect.featvect_ptr
        (to_size_t (to_size_t feat_vect.nb_features * sizeof_double)),
      .set_page (this_shm.current_page + 1),
      .set_page ((this_shm.current_page + 1).tmod this_shm.options.buffer_depth),
      .sem_call { sem_num := PREPROC_OUT_READY, sem_op := 1, sem_flg := Int.lor SEM_UNDO IPC_NOWAIT } ]
  else
    [ .sem_call sops1 ]

/-- Indices of `signal` that the scanning loop of `has_eye_blink` reads, in
program order, for at most `fuel` iterations: two per iteration, one for each
watched channel. -/
def blink_scan_reads (signal : Int → ℚ) (dim_i dim_j : Int) : Nat → blink_scan_t → List Int
  | 0, _ => []
  | fuel + 1, s =>
    if s.nb_blink_samples < COUNT_THRESHOLD ∧ s.time_iter < dim_i then
      (dim_j * s.time_iter + CHAN_1) :: (dim_j * s.time_iter + CHAN_4) ::
        blink_scan_reads signal dim_i dim_j fuel (blink_scan_body signal dim_j s)
    else []

/-- Indices of `signal` that one call of `has_eye_blink` reads: those of the
scanning loop when no frame is pending, none otherwise. -/
def has_eye_blink_reads (st : preprocess_core_t) (signal : Int → ℚ) (dim_i dim_j : Int) :
    List Int :=
  if st.next_frame_has_blink = 0 then
    blink_scan_reads signal dim_i dim_j dim_i.toNat
      { blink_onset_found := false, onset_timestamp := 0, nb_blink_samples := 0, time_iter := 0 }
  else []

/-! ## Concrete inputs used to evaluate the embedding -/

/-- Semaphore set with every count at 0. -/
def ex_sem_idle : Int → Int := fun _ => 0

/-- Semaphore set in which only the consumer-ready count (index 3) is 1. -/
def ex_sem_ready : Int → Int := fun i => if i = 3 then 1 else 0

/-- Options with a one-byte frame status, two features and three pages. -/
def ex_options : shm_output_options_t :=
  { shm_key := 1234, sem_key := 5678, frame_status_size := 1, nb_features := 2, buffer_depth := 3 }

/-- Environment in which the three system calls succeed, over a zeroed segment
and with no adjust-on-exit value pending. -/
def ex_env (sems : Int → Int) : ipc_env :=
  { shmget_ret := 7, shmat_failed := false, segment := fun _ => 0, semget_ret := 9,
    sem_set := sems, sem_adj := fun _ => 0, sops := { sem_num := 0, sem_op := 0, sem_flg := 0 } }

/-- Publisher that `shm_wrt_init` returns in the environment `ex_env sems`. -/
def ex_publisher (options : shm_output_options_t) (sems : Int → Int) : shm_output_t :=
  { options := options, shmid := 7, shm_buf := fun _ => 0,
    page_size := shm_page_size options,
    total_buffer_size := shm_page_size options * options.buffer_depth,
    current_page := 0, semid := 9, sops := { sem_num := 0, sem_op := 0, sem_flg := 0 },
    sem_set := sems, sem_adj := fun _ => 0 }

/-- Feature vector with the blink flag set, `n` features, and byte `k` of the
feature array equal to `10 + k`. -/
def ex_vector (n : Int) : feature_buf_t Int :=
  { frame_status := { eye_blink_detected := 1 }, nb_features := n, featvect_ptr := fun k => 10 + k }

/-- Configuration with 4 channels, windows of 4 samples, the spectral kind
and the blink detection. -/
def ex_config_blink : appconfig_t :=
  { nb_channels := 4, window_width := 4, timeseries := false, fft := true, power_alpha := false,
    power_beta := false, power_gamma := false, muse_eyeblink_detect := true }

/-- Configuration with 3 channels, windows of 3 samples and the spectral kind
only. -/
def ex_config_odd : appconfig_t :=
  { nb_channels := 3, window_width := 3, timeseries := false, fft := true, power_alpha := false,
    power_beta := false, power_gamma := false, muse_eyeblink_detect := false }

/-- File-scope variables after `init_preprocess_core config`, called first
thing in the program, over zeroed work buffers. -/
def ex_core (config : appconfig_t) : preprocess_core_t :=
  (init_preprocess_core config preprocess_core_start (fun _ => 0) (fun _ => 0) (fun _ => 0)
    (fun _ => 0)).2

/-- Window of 4 samples by 4 channels, all 0 but sample 1 of channel 0 at -91. -/
def ex_signal_one : Int → ℚ := fun a => if a = 4 then -91 else 0

/-- Window of 4 samples by 4 channels, all 0 but sample 1 of channels 0 and 3
at -91. -/
def ex_signal_two : Int → ℚ := fun a => if a = 4 ∨ a = 7 then -91 else 0

/-- Window of 4 samples by 4 channels, all 0. -/
def ex_signal_quiet : Int → ℚ := fun _ => 0

/-- Transform primitive that answers 7 at every place. -/
def ex_dft : (Int → ℚ) → Int → Int → Int → (Int → ℚ) := fun _ _ _ _ _ => 7

/-- Window of 3 samples by 3 channels holding 0, 1, .., 8. -/
def ex_window : data_t :=
  { ptr := fun a => if 0 ≤ a ∧ a < 9 then (a : ℚ) else 0, nb_data := 9 }

/-- Output record over a zeroed feature array, with the blink flag left set by
an earlier frame. -/
def ex_output : feature_buf_t ℚ :=
  { frame_status := { eye_blink_detected := 1 }, nb_features := 3, featvect_ptr := fun _ => 0 }

/-- Engine of `ex_config_blink` left with two frames still to flag. -/
def ex_core_carrying : preprocess_core_t :=
  { ex_core ex_config_blink with next_frame_has_blink := 2 }

/-- Window `[[1,2],[3,4],[5,6],[7,8]]`, 4 samples by 2 channels, row-major. -/
def ex_window_dc : Int → ℚ := fun k => if 0 ≤ k ∧ k < 8 then (k : ℚ) + 1 else 0

/-- Matrix of 2 rows by 3 columns holding 0, 1, .., 5, row-major. -/
def ex_matrix : Int → ℚ := fun k => (k : ℚ)

/-- Semaphore set in which only the consumer-ready count (index 3) is 2. -/
def ex_sem_two : Int → Int := fun i => if i = 3 then 2 else 0

/-- Engine configured for one channel and windows of 3 samples. -/
def ex_config_mono : appconfig_t :=
  { nb_channels := 1, window_width := 3, timeseries := false, fft := false, power_alpha := false,
    power_beta := false, power_gamma := false, muse_eyeblink_detect := true }

/-! ## Lemmas on the primitives and on the publisher -/

/-- What a successful `shm_wrt_init` returns. -/
theorem shm_wrt_init_some (options : shm_output_options_t) (env : ipc_env) (st0 : shm_output_t)
    (h_init : shm_wrt_init options env = some st0) :
    st0.options = options ∧
    st0.page_size = shm_page_size options ∧
    st0.total_buffer_size = st0.page_size * options.buffer_depth ∧
    st0.current_page = 0 ∧ st0.shm_buf = env.segment ∧ st0.sem_set = env.sem_set ∧
    st0.sem_adj = env.sem_adj := by
  unfold shm_wrt_init at h_init
  simp only [] at h_init
  split at h_init
  · exact absurd h_init (by simp)
  · split at h_init
    · exact absurd h_init (by simp)
    · split at h_init
      · exact absurd h_init (by simp)
      · injection h_init with h_eq
        subst h_eq
        exact ⟨rfl, rfl, rfl, rfl, rfl, rfl, rfl⟩

/-- The page size is the exact sum when the feature count is not negative and
the sum fits an `int`. -/
theorem shm_page_size_exact (options : shm_output_options_t) (h_nb : 0 ≤ options.nb_features)
    (h_fss : 0 ≤ options.frame_status_size)
    (h_range : options.nb_features * 8 + options.frame_status_size ≤ INT_MAX) :
    shm_page_size options = options.nb_features * 8 + options.frame_status_size := by
  simp only [INT_MAX] at h_range
  simp only [shm_page_size, to_int, to_size_t, sizeof_double]
  split <;> omega

/-- The try-acquire of the consumer-ready semaphore. -/
theorem semop_try_acquire (sem_set sem_adj : Int → Int) :
    semop sem_set sem_adj { sem_num := APP_IN_READY, sem_op := -1, sem_flg := IPC_NOWAIT } =
      if 1 ≤ sem_set APP_IN_READY then
        (0, Function.update sem_set APP_IN_READY (sem_set APP_IN_READY - 1), sem_adj)
      else (-1, sem_set, sem_adj) := by
  have hflag : ¬ ((IPC_NOWAIT / SEM_UNDO) % 2 = 1) := by decide
  simp only [semop, hflag, if_false]
  simp [APP_IN_READY, NB_SEM]
  rfl

/-- The post of the output-ready semaphore. -/
theorem semop_post (sem_set sem_adj : Int → Int) :
    semop sem_set sem_adj
        { sem_num := PREPROC_OUT_READY, sem_op := 1, sem_flg := Int.lor SEM_UNDO IPC_NOWAIT } =
      if post_accepted sem_set sem_adj then
        (0, Function.update sem_set PREPROC_OUT_READY (sem_set PREPROC_OUT_READY + 1),
          Function.update sem_adj PREPROC_OUT_READY (sem_adj PREPROC_OUT_READY - 1))
      else (-1, sem_set, sem_adj) := by
  have hflag : (Int.lor SEM_UNDO IPC_NOWAIT / SEM_UNDO) % 2 = 1 := by decide
  have hnum : ¬ (PREPROC_OUT_READY < 0 ∨ NB_SEM ≤ PREPROC_OUT_READY) := by decide
  have hpos : (0 : Int) < 1 := by decide
  simp only [semop, hflag, hnum, hpos, if_true, if_false, post_accepted, SEMVMX, SEMAEM]
  split_ifs <;> first | rfl | omega

/-- The call when the try-acquire fails: only the local `sembuf` is touched. -/
theorem write_skipped (this_shm : shm_output_t) (feat_vect : feature_buf_t Int)
    (h : this_shm.sem_set APP_IN_READY < 1) :
    shm_wrt_write_to_buf this_shm feat_vect =
      (EXIT_SUCCESS, { this_shm with
        sops := { sem_num := APP_IN_READY, sem_op := -1, sem_flg := IPC_NOWAIT } }) := by
  have h2 : ¬ (1 ≤ this_shm.sem_set APP_IN_READY) := by omega
  simp [shm_wrt_write_to_buf, semop_try_acquire, h2]

/-- The call when the try-acquire succeeds: the two copies, the cursor, and
the post, which the kernel accepts or refuses. -/
theorem write_written (this_shm : shm_output_t) (feat_vect : feature_buf_t Int)
    (h : 1 ≤ this_shm.sem_set APP_IN_READY) :
    shm_wrt_write_to_buf this_shm feat_vect =
      (EXIT_SUCCESS, { this_shm with
        shm_buf :=
          memcpy
            (memcpy this_shm.shm_buf (this_shm.page_size * this_shm.current_page)
              (frame_info_bytes feat_vect.frame_status) sizeof_frame_info_t)
            (this_shm.page_size * this_shm.current_page + sizeof_frame_info_t)
            feat_vect.featvect_ptr (to_size_t (to_size_t feat_vect.nb_features * sizeof_double))
        current_page := (this_shm.current_page + 1).tmod this_shm.options.buffer_depth
        sops := { sem_num := PREPROC_OUT_READY, sem_op := 1, sem_flg := Int.lor SEM_UNDO IPC_NOWAIT }
        sem_set :=
          if post_accepted this_shm.sem_set this_shm.sem_adj then
            Function.update
              (Function.update this_shm.sem_set APP_IN_READY (this_shm.sem_set APP_IN_READY - 1))
              PREPROC_OUT_READY (this_shm.sem_set PREPROC_OUT_READY + 1)
          else Function.update this_shm.sem_set APP_IN_READY (this_shm.sem_set APP_IN_READY - 1)
        sem_adj :=
          if post_accepted this_shm.sem_set this_shm.sem_adj then
            Function.update this_shm.sem_adj PREPROC_OUT_READY
              (this_shm.sem_adj PREPROC_OUT_READY - 1)
          else this_shm.sem_adj }) := by
  have hacc : post_accepted
      (Function.update this_shm.sem_set APP_IN_READY (this_shm.sem_set APP_IN_READY - 1))
      this_shm.sem_adj ↔ post_accepted this_shm.sem_set this_shm.sem_adj := by
    simp [post_accepted, Function.update, PREPROC_OUT_READY, APP_IN_READY]
  simp only [shm_wrt_write_to_buf, semop_try_acquire, semop_post, if_pos h]
  by_cases hp : post_accepted this_shm.sem_set this_shm.sem_adj
  · simp only [if_pos hp, if_pos (hacc.mpr hp)]
    simp [Function.update, PREPROC_OUT_READY, APP_IN_READY]
  · simp only [if_neg hp, if_neg (fun hc => hp (hacc.mp hc))]
    simp

/-- The semaphore counts after a call whose try-acquire succeeds. -/
theorem write_written_sem (this_shm : shm_output_t) (feat_vect : feature_buf_t Int)
    (h : 1 ≤ this_shm.sem_set APP_IN_READY) :
    (shm_wrt_write_to_buf this_shm feat_vect).2.sem_set APP_IN_READY =
      this_shm.sem_set APP_IN_READY - 1 ∧
    (shm_wrt_write_to_buf this_shm feat_vect).2.sem_set PREPROC_OUT_READY =
      (if post_accepted this_shm.sem_set this_shm.sem_adj then
        this_shm.sem_set PREPROC_OUT_READY + 1
      else this_shm.sem_set PREPROC_OUT_READY) ∧
    (shm_wrt_write_to_buf this_shm feat_vect).2.sem_adj PREPROC_OUT_READY =
      (if post_accepted this_shm.sem_set this_shm.sem_adj then
        this_shm.sem_adj PREPROC_OUT_READY - 1
      else this_shm.sem_adj PREPROC_OUT_READY) ∧
    (∀ i : Int, i ≠ APP_IN_READY → i ≠ PREPROC_OUT_READY →
      (shm_wrt_write_to_buf this_shm feat_vect).2.sem_set i = this_shm.sem_set i) := by
  rw [write_written this_shm feat_vect h]
  by_cases hp : post_accepted this_shm.sem_set this_shm.sem_adj
  · simp only [if_pos hp]
    refine ⟨by simp [Function.update, PREPROC_OUT_READY, APP_IN_READY],
      by simp [Function.update], by simp [Function.update], ?_⟩
    intro i h3 h2
    simp [Function.update, h3, h2]
  · simp only [if_neg hp]
    refine ⟨by simp [Function.update], by simp [Function.update, PREPROC_OUT_READY, APP_IN_READY],
      trivial, ?_⟩
    intro i h3 h2
    simp [Function.update, h3]

/-! ## Claims on the publisher -/

/-- C1.  Backpressure leaves everything untouched: when the consumer-ready
semaphore (index 3, `APP_IN_READY`) has count 0 at the call of
`shm_wrt_write_to_buf`, the segment (every byte of it), `current_page` and the
semaphore set (every count of it) are after the call what they were before. -/
theorem shm_wrt_write_backpressure (this_shm : shm_output_t) (feat_vect : feature_buf_t Int)
    (h : this_shm.sem_set APP_IN_READY = 0) :
    (shm_wrt_write_to_buf this_shm feat_vect).2.shm_buf = this_shm.shm_buf ∧
    (shm_wrt_write_to_buf this_shm feat_vect).2.current_page = this_shm.current_page ∧
    (shm_wrt_write_to_buf this_shm feat_vect).2.sem_set = this_shm.sem_set := by
  rw [write_skipped this_shm feat_vect (by omega)]
  exact ⟨rfl, rfl, rfl⟩

/-- C1 at a concrete publisher whose six semaphores are at 0. -/
theorem shm_wrt_write_backpressure_witness :
    (ex_publisher ex_options ex_sem_idle).sem_set APP_IN_READY = 0 ∧
    (shm_wrt_write_to_buf (ex_publisher ex_options ex_sem_idle) (ex_vector 2)).2.shm_buf =
      (ex_publisher ex_options ex_sem_idle).shm_buf ∧
    (shm_wrt_write_to_buf (ex_publisher ex_options ex_sem_idle) (ex_vector 2)).2.current_page =
      (ex_publisher ex_options ex_sem_idle).current_page ∧
    (shm_wrt_write_to_buf (ex_publisher ex_options ex_sem_idle) (ex_vector 2)).2.sem_set =
      (ex_publisher ex_options ex_sem_idle).sem_set :=
  ⟨by decide,
    shm_wrt_write_backpressure (ex_publisher ex_options ex_sem_idle) (ex_vector 2) (by decide)⟩

/-- C2 as stated fails: a call made with the consumer-ready count at 1 and a
call made with the count at 0 return the same value. -/
theorem shm_wrt_write_result_same :
    1 ≤ (ex_publisher ex_options ex_sem_ready).sem_set APP_IN_READY ∧
    (ex_publisher ex_options ex_sem_idle).sem_set APP_IN_READY = 0 ∧
    ¬ ((shm_wrt_write_to_buf (ex_publisher ex_options ex_sem_ready) (ex_vector 2)).1 ≠
       (shm_wrt_write_to_buf (ex_publisher ex_options ex_sem_idle) (ex_vector 2)).1) := by
  decide

/-- C2, amended.  `shm_wrt_write_to_buf` returns `EXIT_SUCCESS` whether the
try-acquire of the consumer-ready semaphore succeeded or failed; what happened
shows in the publisher only: the consumer-ready count is one lower after a
write and as before after a skip. -/
theorem shm_wrt_write_result (this_shm : shm_output_t) (feat_vect : feature_buf_t Int) :
    (shm_wrt_write_to_buf this_shm feat_vect).1 = EXIT_SUCCESS ∧
    (shm_wrt_write_to_buf this_shm feat_vect).2.sem_set APP_IN_READY =
      (if 1 ≤ this_shm.sem_set APP_IN_READY then this_shm.sem_set APP_IN_READY - 1
       else this_shm.sem_set APP_IN_READY) := by
  by_cases h : 1 ≤ this_shm.sem_set APP_IN_READY
  · rw [if_pos h]
    exact ⟨by rw [write_written this_shm feat_vect h], (write_written_sem this_shm feat_vect h).1⟩
  · rw [write_skipped this_shm feat_vect (by omega), if_neg h]
    exact ⟨rfl, rfl⟩

/-- Effect of one iteration of the scanning loop. -/
theorem blink_scan_body_spec (signal : Int → ℚ) (dim_j : Int) (s : blink_scan_t) :
    (blink_scan_body signal dim_j s).time_iter = s.time_iter + 1 ∧
    ((blink_scan_body signal dim_j s).blink_onset_found = true ↔
      (s.blink_onset_found = true ∨ below_threshold signal dim_j s.time_iter)) ∧
    (s.blink_onset_found = true →
      (blink_scan_body signal dim_j s).onset_timestamp = s.onset_timestamp) ∧
    (s.blink_onset_found = false → below_threshold signal dim_j s.time_iter →
      (blink_scan_body signal dim_j s).onset_timestamp = s.time_iter) ∧
    ((blink_scan_body signal dim_j s).blink_onset_found = false →
      (blink_scan_body signal dim_j s).nb_blink_samples = s.nb_blink_samples) := by
  unfold blink_scan_body blink_scan_chan below_threshold
  by_cases c1 : signal (dim_j * s.time_iter + CHAN_1) < SIGNAL_THRESHOLD <;>
  by_cases c4 : signal (dim_j * s.time_iter + CHAN_4) < SIGNAL_THRESHOLD <;>
  cases hf : s.blink_onset_found <;>
  simp [c1, c4, hf]

/-- One iteration of the scanning loop keeps the invariant. -/
theorem scan_inv_body (signal : Int → ℚ) (dim_j : Int) (s : blink_scan_t)
    (h : scan_inv signal dim_j s) : scan_inv signal dim_j (blink_scan_body signal dim_j s) := by
  obtain ⟨h0, h1, h2, h3⟩ := h
  obtain ⟨b_time, b_found, b_keep, b_new, b_nb⟩ := blink_scan_body_spec signal dim_j s
  refine ⟨by omega, ?_, ?_, ?_⟩
  · intro hpos
    cases hb : (blink_scan_body signal dim_j s).blink_onset_found with
    | true => rfl
    | false =>
      have hs : s.blink_onset_found = true := h1 (by rw [← b_nb hb]; exact hpos)
      exact absurd (b_found.mpr (Or.inl hs)) (by simp [hb])
  · intro hb
    cases hf : s.blink_onset_found with
    | true =>
      obtain ⟨o0, o1, o2, o3⟩ := h2 hf
      rw [b_keep hf, b_time]
      exact ⟨o0, by omega, o2, o3⟩
    | false =>
      have hbelow : below_threshold signal dim_j s.time_iter := by
        rcases b_found.mp hb with hs | hb2
        · exact absurd hs (by simp [hf])
        · exact hb2
      rw [b_new hf hbelow, b_time]
      exact ⟨h0, by omega, hbelow, h3 hf⟩
  · intro hb t ht0 ht1
    have hnot : ¬ (s.blink_onset_found = true ∨ below_threshold signal dim_j s.time_iter) :=
      fun hc => absurd (b_found.mpr hc) (by simp [hb])
    have hf : s.blink_onset_found = false := by
      cases hf : s.blink_onset_found with
      | true => exact absurd (Or.inl hf) hnot
      | false => rfl
    rw [b_time] at ht1
    by_cases hlt : t < s.time_iter
    · exact h3 hf t ht0 hlt
    · have : t = s.time_iter := by omega
      subst this
      exact fun hc => hnot (Or.inr hc)

/-- The scanning loop keeps the invariant, never passes `dim_i`, and with
enough fuel stops only when its condition is false. -/
theorem blink_scan_spec (signal : Int → ℚ) (dim_i dim_j : Int) :
    ∀ (fuel : Nat) (s : blink_scan_t), scan_inv signal dim_j s → s.time_iter ≤ dim_i →
      scan_inv signal dim_j (blink_scan signal dim_i dim_j fuel s) ∧
      (blink_scan signal dim_i dim_j fuel s).time_iter ≤ dim_i ∧
      (dim_i - s.time_iter ≤ (fuel : Int) →
        ¬ ((blink_scan signal dim_i dim_j fuel s).nb_blink_samples < COUNT_THRESHOLD ∧
           (blink_scan signal dim_i dim_j fuel s).time_iter < dim_i)) := by
  intro fuel
  induction fuel with
  | zero =>
    intro s hinv hle
    refine ⟨hinv, hle, ?_⟩
    intro hfuel
    simp only [blink_scan]
    omega
  | succ n ih =>
    intro s hinv hle
    by_cases hc : s.nb_blink_samples < COUNT_THRESHOLD ∧ s.time_iter < dim_i
    · have hstep : blink_scan signal dim_i dim_j (n + 1) s =
          blink_scan signal dim_i dim_j n (blink_scan_body signal dim_j s) := by
        simp [blink_scan, hc]
      have htime := (blink_scan_body_spec signal dim_j s).1
      rw [hstep]
      obtain ⟨i1, i2, i3⟩ := ih (blink_scan_body signal dim_j s)
        (scan_inv_body signal dim_j s hinv) (by omega)
      refine ⟨i1, i2, ?_⟩
      intro hfuel
      apply i3
      push_cast at hfuel
      omega
    · have hstep : blink_scan signal dim_i dim_j (n + 1) s = s := by
        simp [blink_scan, hc]
      rw [hstep]
      exact ⟨hinv, hle, fun _ => hc⟩


/-- The fuel that `has_eye_blink` gives the scanning loop suffices: the loop
stops with its condition false. -/
theorem blink_scan_fuel_suffices (signal : Int → ℚ) (dim_i dim_j : Int) :
    ¬ ((blink_scan signal dim_i dim_j dim_i.toNat
          { blink_onset_found := false, onset_timestamp := 0, nb_blink_samples := 0,
            time_iter := 0 }).nb_blink_samples < COUNT_THRESHOLD ∧
       (blink_scan signal dim_i dim_j dim_i.toNat
          { blink_onset_found := false, onset_timestamp := 0, nb_blink_samples := 0,
            time_iter := 0 }).time_iter < dim_i) := by
  by_cases hW : 0 ≤ dim_i
  · have hinit : scan_inv signal dim_j
        { blink_onset_found := false, onset_timestamp := 0, nb_blink_samples := 0,
          time_iter := 0 } := by
      refine ⟨le_refl 0, ?_, ?_, ?_⟩
      · intro h
        exact absurd h (by simp)
      · intro h
        exact absurd h (by simp)
      · intro _ t ht0 ht1
        exact absurd ht1 (by simp only []; omega)
    exact (blink_scan_spec signal dim_i dim_j dim_i.toNat _ hinit (by simp only []; omega)).2.2
      (by simp only []; omega)
  · have hz : dim_i.toNat = 0 := by omega
    rw [hz]
    simp only [blink_scan]
    omega

/-- With a window width that is not positive and a positive start value the
carry loop never ends: no fuel gives a result. -/
theorem blink_carry_diverges (W : Int) (hW : W ≤ 0) :
    ∀ (fuel : Nat) (t nx : Int), 0 < t → blink_carry fuel t W nx = none := by
  intro fuel
  induction fuel with
  | zero =>
    intro t nx ht
    simp [blink_carry, ht]
  | succ n ih =>
    intro t nx ht
    simp only [blink_carry, if_pos ht]
    exact ih (t - W) (nx + 1) (by omega)

/-- One more window in the quotient that rounds up. -/
theorem ceil_step (t W : Int) (hW : 1 ≤ W) : (t + W - 1) / W = (t - 1) / W + 1 := by
  have h : t + W - 1 = (t - 1) + 1 * W := by omega
  rw [h, Int.add_mul_ediv_right _ _ (by omega)]

/-- With a positive window width the carry loop terminates within the fuel
that `has_eye_blink` gives it, and adds `carry_frames` to the counter. -/
theorem blink_carry_spec (W : Int) (hW : 1 ≤ W) :
    ∀ (fuel : Nat) (t nx : Int), t ≤ (fuel : Int) →
      blink_carry fuel t W nx = some (nx + carry_frames t W) := by
  intro fuel
  induction fuel with
  | zero =>
    intro t nx ht
    have h : ¬ (0 < t) := by
      simp only [Nat.cast_zero] at ht
      omega
    simp [blink_carry, carry_frames, h]
  | succ n ih =>
    intro t nx ht
    by_cases hpos : 0 < t
    · have hstep : blink_carry (n + 1) t W nx = blink_carry n (t - W) W (nx + 1) := by
        simp [blink_carry, hpos]
      rw [hstep, ih (t - W) (nx + 1) (by push_cast at ht; omega)]
      congr 1
      simp only [carry_frames, if_pos hpos]
      rw [ceil_step t W hW]
      by_cases hmore : 0 < t - W
      · rw [if_pos hmore]
        have h : t - W + W - 1 = t - 1 := by omega
        rw [h]
        omega
      · rw [if_neg hmore]
        have h : (t - 1) / W = 0 := Int.ediv_eq_zero_of_lt (by omega) (by omega)
        rw [h]
        omega
    · simp [blink_carry, carry_frames, hpos]

/-- `carry_frames` is the least number of subtractions that bring `remaining`
to zero or below. -/
theorem carry_frames_least (r W : Int) (hW : 1 ≤ W) :
    0 ≤ carry_frames r W ∧ r - carry_frames r W * W ≤ 0 ∧
    ∀ m : Int, 0 ≤ m → m < carry_frames r W → 0 < r - m * W := by
  unfold carry_frames
  by_cases hpos : 0 < r
  · rw [if_pos hpos]
    have hq := Int.ediv_add_emod (r + W - 1) W
    have hr0 := Int.emod_nonneg (r + W - 1) (show W ≠ 0 by omega)
    have hr1 := Int.emod_lt_of_pos (r + W - 1) (show 0 < W by omega)
    refine ⟨Int.ediv_nonneg (by omega) (by omega), ?_, ?_⟩
    · rw [Int.mul_comm]
      omega
    · intro m hm0 hm1
      have h1 : m + 1 ≤ (r + W - 1) / W := by omega
      have h2 : (m + 1) * W ≤ (r + W - 1) / W * W :=
        Int.mul_le_mul_of_nonneg_right h1 (by omega)
      rw [Int.mul_comm ((r + W - 1) / W) W] at h2
      have h3 : (m + 1) * W = m * W + W := by ring
      omega
  · rw [if_neg hpos]
    refine ⟨le_refl 0, by omega, ?_⟩
    intro m hm0 hm1
    omega

/-- A window with an occurrence has a sample below the threshold. -/
theorem exists_below_of_occurrences (signal : Int → ℚ) (dim_i dim_j : Int)
    (h : 1 ≤ occurrences signal dim_i dim_j) :
    ∃ t : Int, 0 ≤ t ∧ t < dim_i ∧ below_threshold signal dim_j t := by
  by_contra hno
  have hzero : occurrences signal dim_i dim_j = 0 := by
    unfold occurrences
    apply List.sum_eq_zero
    intro x hx
    obtain ⟨t, ht, rfl⟩ := List.mem_map.mp hx
    have ht2 : t < dim_i.toNat := List.mem_range.mp ht
    have hnb : ¬ below_threshold signal dim_j (t : Int) := by
      intro hb
      exact hno ⟨(t : Int), by omega, by omega, hb⟩
    unfold below_threshold at hnb
    unfold occurrences_at
    have c1 : ¬ signal (dim_j * (t : Int) + CHAN_1) < SIGNAL_THRESHOLD := fun hc => hnb (Or.inl hc)
    have c4 : ¬ signal (dim_j * (t : Int) + CHAN_4) < SIGNAL_THRESHOLD := fun hc => hnb (Or.inr hc)
    simp [c1, c4]
  omega


/-- Scanning from IDLE a window that has a sample below the threshold: the
frame is flagged and the carry is computed from the first such sample. -/
theorem has_eye_blink_idle_found (st : preprocess_core_t) (signal : Int → ℚ) (W C : Int)
    (hW : 1 ≤ W) (h_ns : st.nb_samples = W) (h_idle : st.next_frame_has_blink = 0)
    (h_ex : ∃ t : Int, 0 ≤ t ∧ t < W ∧ below_threshold signal C t) :
    ∃ onset : Int, 0 ≤ onset ∧ onset < W ∧ below_threshold signal C onset ∧
      (∀ t : Int, 0 ≤ t → t < onset → ¬ below_threshold signal C t) ∧
      has_eye_blink st signal W C =
        some (1, { st with
          next_frame_has_blink := carry_frames (st.eye_blink_length - (W - onset)) W }) := by
  have hinit : scan_inv signal C
      { blink_onset_found := false, onset_timestamp := 0, nb_blink_samples := 0, time_iter := 0 } := by
    refine ⟨le_refl 0, ?_, ?_, ?_⟩
    · intro h
      exact absurd h (by simp)
    · intro h
      exact absurd h (by simp)
    · intro _ t ht0 ht1
      exact absurd ht1 (by simp only []; omega)
  obtain ⟨hinv, hle, hexit⟩ := blink_scan_spec signal W C W.toNat _ hinit (by simp only []; omega)
  have hexit2 := hexit (by simp only []; omega)
  obtain ⟨_, r1, r2, r3⟩ := hinv
  generalize hr : blink_scan signal W C W.toNat
    { blink_onset_found := false, onset_timestamp := 0, nb_blink_samples := 0, time_iter := 0 } = r
    at r1 r2 r3 hle hexit2
  have hfound : r.blink_onset_found = true := by
    cases hf : r.blink_onset_found with
    | true => rfl
    | false =>
      exfalso
      obtain ⟨t, ht0, ht1, hb⟩ := h_ex
      by_cases hnb : r.nb_blink_samples < COUNT_THRESHOLD
      · have : ¬ (r.time_iter < W) := fun hc => hexit2 ⟨hnb, hc⟩
        exact r3 hf t ht0 (by omega) hb
      · have hpos : 0 < r.nb_blink_samples := by
          simp only [COUNT_THRESHOLD] at hnb
          omega
        exact absurd (r1 hpos) (by simp [hf])
  obtain ⟨o0, o1, o2, o3⟩ := r2 hfound
  refine ⟨r.onset_timestamp, o0, by omega, o2, o3, ?_⟩
  unfold has_eye_blink
  simp only [h_idle, if_true, hr, hfound, h_ns]
  rw [blink_carry_spec W hW _ _ _ (Int.self_le_toNat _)]
  simp

/-- Scanning from IDLE a window that has no sample below the threshold: the
frame is not flagged and the detector stays IDLE. -/
theorem has_eye_blink_idle_none (st : preprocess_core_t) (signal : Int → ℚ) (W C : Int)
    (h_idle : st.next_frame_has_blink = 0)
    (h_no : ∀ t : Int, 0 ≤ t → t < W → ¬ below_threshold signal C t) :
    has_eye_blink st signal W C = some (0, st) := by
  have hinit : scan_inv signal C
      { blink_onset_found := false, onset_timestamp := 0, nb_blink_samples := 0, time_iter := 0 } := by
    refine ⟨le_refl 0, ?_, ?_, ?_⟩
    · intro h
      exact absurd h (by simp)
    · intro h
      exact absurd h (by simp)
    · intro _ t ht0 ht1
      exact absurd ht1 (by simp only []; omega)
  by_cases hW : 0 ≤ W
  · obtain ⟨hinv, hle, _⟩ := blink_scan_spec signal W C W.toNat _ hinit (by simp only []; omega)
    obtain ⟨_, _, r2, _⟩ := hinv
    generalize hr : blink_scan signal W C W.toNat
      { blink_onset_found := false, onset_timestamp := 0, nb_blink_samples := 0, time_iter := 0 } = r
      at r2 hle
    have hfound : r.blink_onset_found = false := by
      cases hf : r.blink_onset_found with
      | false => rfl
      | true =>
        obtain ⟨o0, o1, o2, _⟩ := r2 hf
        exact absurd o2 (h_no _ o0 (by omega))
    unfold has_eye_blink
    simp [h_idle, hr, hfound]
  · have hz : W.toNat = 0 := by omega
    unfold has_eye_blink
    simp [h_idle, hz, blink_scan]

/-- A call made while frames are pending: no scan, flag 1, one frame less. -/
theorem has_eye_blink_carrying (st : preprocess_core_t) (signal : Int → ℚ) (dim_i dim_j : Int)
    (h : st.next_frame_has_blink ≠ 0) :
    has_eye_blink st signal dim_i dim_j =
      some (1, { st with next_frame_has_blink := st.next_frame_has_blink - 1 }) := by
  simp [has_eye_blink, h]

/-- As many calls as there are windows, none more than the pending frames. -/
theorem has_eye_blink_seq_carrying :
    ∀ (ws : List ((Int → ℚ) × Int × Int)) (st : preprocess_core_t) (n : Nat),
      st.next_frame_has_blink = (n : Int) → ws.length ≤ n →
      has_eye_blink_seq st ws =
        some (List.replicate ws.length 1,
          { st with next_frame_has_blink := (n : Int) - (ws.length : Int) }) := by
  intro ws
  induction ws with
  | nil =>
    intro st n h _
    simp [has_eye_blink_seq, ← h]
  | cons w ws ih =>
    intro st n h hlen
    simp only [List.length_cons] at hlen
    have hne : st.next_frame_has_blink ≠ 0 := by omega
    have hrec := ih { st with next_frame_has_blink := st.next_frame_has_blink - 1 } (n - 1)
      (by simp only []; omega) (by omega)
    simp only [has_eye_blink_seq, has_eye_blink_carrying st w.1 w.2.1 w.2.2 hne, hrec,
      List.length_cons, List.replicate_succ]
    congr 3
    push_cast
    omega

/-- Unfolding of a sequence of calls at its first window. -/
theorem has_eye_blink_seq_cons (st : preprocess_core_t) (w : (Int → ℚ) × Int × Int)
    (ws : List ((Int → ℚ) × Int × Int)) :
    has_eye_blink_seq st (w :: ws) =
      match has_eye_blink st w.1 w.2.1 w.2.2 with
      | some (flag, st1) =>
        match has_eye_blink_seq st1 ws with
        | some (flags, st2) => some (flag :: flags, st2)
        | none => none
      | none => none := rfl

/-- A sequence of calls over two lists of windows, one after the other. -/
theorem has_eye_blink_seq_append :
    ∀ (ws1 ws2 : List ((Int → ℚ) × Int × Int)) (st : preprocess_core_t),
      has_eye_blink_seq st (ws1 ++ ws2) =
        match has_eye_blink_seq st ws1 with
        | some (flags1, st1) =>
          (has_eye_blink_seq st1 ws2).map (fun r => (flags1 ++ r.1, r.2))
        | none => none := by
  intro ws1
  induction ws1 with
  | nil =>
    intro ws2 st
    simp [has_eye_blink_seq]
  | cons w ws ih =>
    intro ws2 st
    rw [List.cons_append, has_eye_blink_seq_cons, has_eye_blink_seq_cons]
    cases h1 : has_eye_blink st w.1 w.2.1 w.2.2 with
    | none => rfl
    | some r =>
      obtain ⟨flag, st1⟩ := r
      simp only []
      rw [ih ws2 st1]
      cases h2 : has_eye_blink_seq st1 ws with
      | none => rfl
      | some r2 =>
        obtain ⟨flags, st2⟩ := r2
        simp only []
        cases h3 : has_eye_blink_seq st2 ws2 with
        | none => rfl
        | some r3 => rfl

/-- A sequence of one call. -/
theorem has_eye_blink_seq_single (st : preprocess_core_t) (w : (Int → ℚ) × Int × Int) :
    has_eye_blink_seq st [w] = (has_eye_blink st w.1 w.2.1 w.2.2).map (fun r => ([r.1], r.2)) := by
  simp only [has_eye_blink_seq]
  cases has_eye_blink st w.1 w.2.1 w.2.2 with
  | none => rfl
  | some r => rfl

/-- Called with `dim_i = nb_samples`, as `preprocess_data` does, `has_eye_blink`
returns, and changes nothing but `next_frame_has_blink`. -/
theorem has_eye_blink_returns (st : preprocess_core_t) (signal : Int → ℚ) (dim_i dim_j : Int)
    (h_dim : st.nb_samples = dim_i) :
    ∃ (flag n : Int), has_eye_blink st signal dim_i dim_j =
      some (flag, { st with next_frame_has_blink := n }) := by
  by_cases h_idle : st.next_frame_has_blink = 0
  · by_cases h_ex : ∃ t : Int, 0 ≤ t ∧ t < dim_i ∧ below_threshold signal dim_j t
    · have hW : 1 ≤ dim_i := by
        obtain ⟨t, ht0, ht1, _⟩ := h_ex
        omega
      obtain ⟨onset, _, _, _, _, hres⟩ := has_eye_blink_idle_found st signal dim_i dim_j
        hW h_dim h_idle h_ex
      exact ⟨1, _, hres⟩
    · refine ⟨0, st.next_frame_has_blink, ?_⟩
      rw [has_eye_blink_idle_none st signal dim_i dim_j h_idle
        (fun t ht0 ht1 hb => h_ex ⟨t, ht0, ht1, hb⟩)]
  · exact ⟨1, _, has_eye_blink_carrying st signal dim_i dim_j h_idle⟩

/-- Function `preprocess_data` returns on every input; what it leaves alone. -/
theorem preprocess_data_returns (abs_dft_interval : (Int → ℚ) → Int → Int → Int → (Int → ℚ))
    (st : preprocess_core_t) (data_input : data_t) (feature_output : feature_buf_t ℚ) :
    ∃ r, preprocess_data abs_dft_interval st data_input feature_output = some r ∧
      r.1 = EXIT_SUCCESS ∧
      r.2.1.feature_vect_length = st.feature_vect_length ∧
      r.2.1.nb_samples = st.nb_samples ∧ r.2.1.nb_channels = st.nb_channels ∧
      r.2.1.eye_blink_detect = st.eye_blink_detect ∧
      r.2.2.featvect_ptr = apply_stores feature_output.featvect_ptr
        (preprocess_stores abs_dft_interval st data_input) := by
  unfold preprocess_data
  simp only []
  by_cases hb : st.eye_blink_detect = true
  · rw [if_pos hb]
    obtain ⟨flag, n, hres⟩ := has_eye_blink_returns
      (preprocess_buffers abs_dft_interval st data_input)
      (preprocess_buffers abs_dft_interval st data_input).signals_wo_avg
      st.nb_samples st.nb_channels rfl
    rw [hres]
    exact ⟨_, rfl, rfl, rfl, rfl, rfl, rfl, rfl⟩
  · rw [if_neg hb]
    exact ⟨_, rfl, rfl, rfl, rfl, rfl, rfl, rfl⟩

/-- A cell that no store of the sequence addresses keeps its value. -/
theorem apply_stores_not_mem {cell : Type} (stores : List (Int × cell)) :
    ∀ (mem : Int → cell) (idx : Int), idx ∉ stores.map Prod.fst →
      apply_stores mem stores idx = mem idx := by
  induction stores with
  | nil =>
    intro mem idx _
    rfl
  | cons s rest ih =>
    intro mem idx hidx
    simp only [List.map_cons, List.mem_cons, not_or] at hidx
    show apply_stores (store mem s.1 s.2) rest idx = mem idx
    rw [ih (store mem s.1 s.2) idx hidx.2]
    simp [store, Function.update, hidx.1]

/-! ## Lemmas on the spectral stores -/

/-- The stores of the loop over the channels, channel by channel. -/
theorem fft_loop_stores (abs_dft_interval : (Int → ℚ) → Int → Int → Int → (Int → ℚ))
    (signals_transposed : Int → ℚ) (nb_channels nb_samples offset : Int) (dft_vector : Int → ℚ) :
    (fft_loop abs_dft_interval signals_transposed nb_channels nb_samples offset dft_vector).2 =
      fft_stores_upto abs_dft_interval signals_transposed nb_samples offset nb_channels.toNat := by
  unfold fft_loop for_loop
  generalize nb_channels.toNat = n
  induction n with
  | zero => rfl
  | succ n ih =>
    rw [List.range_succ, List.foldl_append]
    simp only [List.foldl_cons, List.foldl_nil]
    rw [ih]
    rfl

/-- Stores applied one list after the other. -/
theorem apply_stores_append {cell : Type} (mem : Int → cell) (l1 l2 : List (Int × cell)) :
    apply_stores mem (l1 ++ l2) = apply_stores (apply_stores mem l1) l2 := by
  unfold apply_stores
  rw [List.foldl_append]

/-- Index of a store of the copy loop. -/
theorem fft_copy_stores_fst (dft_vector : Int → ℚ) (i nb_samples offset : Int) (p : Int × ℚ)
    (hp : p ∈ fft_copy_stores dft_vector i nb_samples offset) :
    ∃ j : Int, 0 ≤ j ∧ j < nb_samples.tdiv 2 ∧ p.1 = (i * nb_samples).tdiv 2 + j + offset := by
  unfold fft_copy_stores at hp
  obtain ⟨j, hj, rfl⟩ := List.mem_map.mp hp
  have hj2 : j < (nb_samples.tdiv 2).toNat := List.mem_range.mp hj
  exact ⟨(j : Int), by omega, by omega, rfl⟩

/-- Index of a store of the spectral branch. -/
theorem fft_stores_upto_fst (abs_dft_interval : (Int → ℚ) → Int → Int → Int → (Int → ℚ))
    (signals_transposed : Int → ℚ) (nb_samples offset : Int) :
    ∀ (n : Nat) (p : Int × ℚ),
      p ∈ fft_stores_upto abs_dft_interval signals_transposed nb_samples offset n →
      ∃ i j : Int, 0 ≤ i ∧ i < (n : Int) ∧ 0 ≤ j ∧ j < nb_samples.tdiv 2 ∧
        p.1 = (i * nb_samples).tdiv 2 + j + offset := by
  intro n
  induction n with
  | zero =>
    intro p hp
    exact absurd hp (by simp [fft_stores_upto])
  | succ n ih =>
    intro p hp
    simp only [fft_stores_upto, List.mem_append] at hp
    rcases hp with hp | hp
    · obtain ⟨i, j, hi0, hi1, hj0, hj1, he⟩ := ih p hp
      exact ⟨i, j, hi0, by push_cast; omega, hj0, hj1, he⟩
    · obtain ⟨j, hj0, hj1, he⟩ := fft_copy_stores_fst _ _ _ _ p hp
      exact ⟨(n : Int), j, by omega, by push_cast; omega, hj0, hj1, he⟩

/-- Start index of channel `i` when the window width is even. -/
theorem even_index (i m : Int) (hi : 0 ≤ i) (hm : 0 ≤ m) : (i * (2 * m)).tdiv 2 = i * m := by
  have h0 : 0 ≤ i * (2 * m) := Int.mul_nonneg hi (by omega)
  rw [Int.tdiv_eq_ediv h0 (by omega)]
  have h : i * (2 * m) = 2 * (i * m) := by ring
  rw [h]
  omega

/-- Half of an even window width. -/
theorem even_half (m : Int) (hm : 0 ≤ m) : (2 * m).tdiv 2 = m := by
  rw [Int.tdiv_eq_ediv (by omega) (by omega)]
  omega

/-- Value left by a run of stores at consecutive indices. -/
theorem apply_copy_stores {cell : Type} (f : Int → cell) (a off : Int) :
    ∀ (n : Nat) (mem : Int → cell) (k : Nat), k < n →
      apply_stores mem ((List.range n).map (fun (j : Nat) => (a + (j : Int) + off, f (j : Int))))
        (a + (k : Int) + off) = f (k : Int) := by
  intro n
  induction n with
  | zero =>
    intro mem k hk
    omega
  | succ n ih =>
    intro mem k hk
    rw [List.range_succ, List.map_append, apply_stores_append]
    simp only [List.map_cons, List.map_nil]
    show store _ (a + (n : Int) + off) (f (n : Int)) (a + (k : Int) + off) = f (k : Int)
    by_cases hkn : k = n
    · subst hkn
      simp [store]
    · have hne : a + (k : Int) + off ≠ a + (n : Int) + off := by omega
      simp only [store, Function.update_noteq hne]
      exact ih mem k (by omega)

/-- With an even window width `2*m`, after the stores of the channels
`0 .. n-1` the feature array holds at `c*m + k + offset` the `k`-th value the
primitive returned for channel `c`. -/
theorem fft_stores_upto_even (abs_dft_interval : (Int → ℚ) → Int → Int → Int → (Int → ℚ))
    (signals_transposed : Int → ℚ) (m offset : Int) (hm : 0 ≤ m) :
    ∀ (n : Nat) (mem : Int → ℚ) (c k : Nat), c < n → (k : Int) < m →
      apply_stores mem
          (fft_stores_upto abs_dft_interval signals_transposed (2 * m) offset n)
          ((c : Int) * m + (k : Int) + offset) =
        abs_dft_interval (fun t => signals_transposed ((c : Int) * (2 * m) + t)) (2 * m) 0 m
          (k : Int) := by
  intro n
  induction n with
  | zero =>
    intro mem c k hc _
    omega
  | succ n ih =>
    intro mem c k hc hk
    simp only [fft_stores_upto]
    rw [apply_stores_append, even_half m hm]
    by_cases hcn : c = n
    · subst hcn
      unfold fft_copy_stores
      rw [even_index (c : Int) m (by omega) hm, even_half m hm]
      exact apply_copy_stores _ _ _ _ _ k (by omega)
    · rw [apply_stores_not_mem]
      · exact ih mem c k (by omega) hk
      · intro hmem
        obtain ⟨p, hp, hpe⟩ := List.mem_map.mp hmem
        obtain ⟨j, hj0, _, he⟩ := fft_copy_stores_fst _ _ _ _ p hp
        rw [even_index (n : Int) m (by omega) hm] at he
        have h1 : (c : Int) + 1 ≤ (n : Int) := by omega
        have h2 : ((c : Int) + 1) * m ≤ (n : Int) * m := Int.mul_le_mul_of_nonneg_right h1 hm
        have h3 : ((c : Int) + 1) * m = (c : Int) * m + m := by ring
        omega

/-- With an even window width the spectral stores stay inside the `(W/2)*C`
cells of the spectral block. -/
theorem preprocess_stores_even_bound
    (abs_dft_interval : (Int → ℚ) → Int → Int → Int → (Int → ℚ))
    (st : preprocess_core_t) (data_input : data_t) (m : Int) (hm : 0 ≤ m)
    (hW : st.nb_samples = 2 * m) :
    ∀ idx ∈ (preprocess_stores abs_dft_interval st data_input).map Prod.fst,
      0 ≤ idx ∧ idx < st.nb_samples.tdiv 2 * st.nb_channels := by
  intro idx hidx
  obtain ⟨p, hp, rfl⟩ := List.mem_map.mp hidx
  unfold preprocess_stores at hp
  simp only [] at hp
  split at hp
  · rw [fft_loop_stores] at hp
    obtain ⟨i, j, hi0, hi1, hj0, hj1, he⟩ := fft_stores_upto_fst _ _ _ _ _ p hp
    rw [hW] at he hj1 ⊢
    rw [even_index i m hi0 hm] at he
    rw [even_half m hm] at hj1 ⊢
    have h1 : i + 1 ≤ st.nb_channels := by omega
    have h2 : (i + 1) * m ≤ st.nb_channels * m := Int.mul_le_mul_of_nonneg_right h1 hm
    have h3 : (i + 1) * m = i * m + m := by ring
    have h4 : 0 ≤ i * m := Int.mul_nonneg hi0 hm
    rw [Int.mul_comm m st.nb_channels]
    omega
  · exact absurd hp (by simp)

/-- With an even window width and the spectral kind enabled, `preprocess_data`
leaves at position `c*(W/2) + k` of the feature array the `k`-th value the
primitive returned for the centred series of channel `c`. -/
theorem preprocess_data_even_layout
    (abs_dft_interval : (Int → ℚ) → Int → Int → Int → (Int → ℚ))
    (st : preprocess_core_t) (data_input : data_t) (feature_output : feature_buf_t ℚ)
    (m : Int) (hm : 0 ≤ m) (hW : st.nb_samples = 2 * m) (hfft : st.fft_enabled = true)
    (c k : Nat) (hc : (c : Int) < st.nb_channels) (hk : (k : Int) < st.nb_samples.tdiv 2) :
    ∃ r, preprocess_data abs_dft_interval st data_input feature_output = some r ∧
      r.2.2.featvect_ptr ((c : Int) * st.nb_samples.tdiv 2 + (k : Int)) =
        abs_dft_interval
          (fun t => (preprocess_buffers abs_dft_interval st data_input).signals_transposed
            ((c : Int) * st.nb_samples + t))
          st.nb_samples 0 (st.nb_samples.tdiv 2) (k : Int) := by
  obtain ⟨r, hr, _, _, _, _, _, hfa⟩ :=
    preprocess_data_returns abs_dft_interval st data_input feature_output
  refine ⟨r, hr, ?_⟩
  have hst : preprocess_stores abs_dft_interval st data_input =
      fft_stores_upto abs_dft_interval
        (preprocess_buffers abs_dft_interval st data_input).signals_transposed
        st.nb_samples 0 st.nb_channels.toNat := by
    unfold preprocess_stores
    simp only [hfft, if_true]
    rw [fft_loop_stores]
    rfl
  rw [hfa, hst]
  generalize (preprocess_buffers abs_dft_interval st data_input).signals_transposed = tr
  rw [hW, even_half m hm] at hk ⊢
  have h := fft_stores_upto_even abs_dft_interval tr m 0 hm
    st.nb_channels.toNat feature_output.featvect_ptr c k (by omega) hk
  rw [Int.add_zero] at h
  exact h

/-- With the spectral kind enabled the length computed by
`init_preprocess_core` covers the `(W/2)*C` cells of the spectral block. -/
theorem init_length_covers_spectral (config : appconfig_t) (st0 : preprocess_core_t)
    (m_avg m_wo_avg m_transposed m_dft : Int → ℚ)
    (hfft : config.fft = true) (hC : 0 ≤ config.nb_channels) (hW : 0 ≤ config.window_width) :
    config.window_width.tdiv 2 * config.nb_channels ≤
      (init_preprocess_core config st0 m_avg m_wo_avg m_transposed m_dft).2.feature_vect_length := by
  have hwc : 0 ≤ config.window_width * config.nb_channels := Int.mul_nonneg hW hC
  unfold init_preprocess_core
  simp only [hfft, if_true]
  cases config.timeseries <;> cases config.power_alpha <;> cases config.power_beta <;>
    cases config.power_gamma <;> simp <;> omega

/-- Indices stored by `preprocess_data` with 3 channels and windows of 3
samples. -/
theorem fft_store_indices_odd
    (abs_dft_interval : (Int → ℚ) → Int → Int → Int → (Int → ℚ)) (data_input : data_t) :
    (preprocess_stores abs_dft_interval (ex_core ex_config_odd) data_input).map Prod.fst =
      [0, 1, 3] := rfl

/-! ## Claims on the preprocessing core -/

/-- C4, evaluated where the code departs from it.  Detector IDLE, window of
4 samples by 4 channels with a single below-threshold occurrence (sample 1 of
channel 0 at -91): fewer than 2 occurrences, yet `has_eye_blink` returns 1 and
sets `next_frame_has_blink` to 25. -/
theorem blink_one_occurrence_flagged :
    (ex_core ex_config_blink).next_frame_has_blink = 0 ∧
    (ex_core ex_config_blink).nb_samples = 4 ∧ (ex_core ex_config_blink).nb_channels = 4 ∧
    occurrences ex_signal_one 4 4 = 1 ∧
    (has_eye_blink (ex_core ex_config_blink) ex_signal_one 4 4).map
      (fun r => (r.1, r.2.next_frame_has_blink)) = some (1, 25) := by
  decide

/-- C5.  Blink detection and carry-over: for a window of `W >= 1` samples by
`C >= 4` channels scanned while the detector is IDLE (with `nb_samples = W` and
the blink length at 100 samples, as `init_preprocess_core` sets them), if the
window holds at least 2 below-threshold occurrences on channels 0 and 3, then
there is a smallest sample index `onset` at which channel 0 or channel 3 is
below -90, `has_eye_blink` returns 1, and `next_frame_has_blink` becomes `n`,
the number of times `W` must be subtracted from `remaining = 100 - (W - onset)`
until it is `<= 0`, that is `ceil (remaining / W)` when `remaining > 0` and 0
otherwise. -/
theorem has_eye_blink_detects (st : preprocess_core_t) (signal : Int → ℚ) (W C : Int)
    (hW : 1 ≤ W) (_hC : 4 ≤ C)
    (h_ns : st.nb_samples = W) (h_len : st.eye_blink_length = 100)
    (h_idle : st.next_frame_has_blink = 0)
    (h_occ : 2 ≤ occurrences signal W C) :
    ∃ onset n : Int,
      (0 ≤ onset ∧ onset < W ∧ below_threshold signal C onset ∧
        ∀ t : Int, 0 ≤ t → t < onset → ¬ below_threshold signal C t) ∧
      (0 ≤ n ∧ 100 - (W - onset) - n * W ≤ 0 ∧
        ∀ m : Int, 0 ≤ m → m < n → 0 < 100 - (W - onset) - m * W) ∧
      n = (if 0 < 100 - (W - onset) then (100 - (W - onset) + W - 1) / W else 0) ∧
      has_eye_blink st signal W C = some (1, { st with next_frame_has_blink := n }) := by
  obtain ⟨onset, o0, o1, o2, o3, hres⟩ := has_eye_blink_idle_found st signal W C hW h_ns h_idle
    (exists_below_of_occurrences signal W C (by omega))
  exact ⟨onset, carry_frames (100 - (W - onset)) W, ⟨o0, o1, o2, o3⟩,
    carry_frames_least _ W hW, rfl, by rw [hres, h_len]⟩


/-- C5 at a window of 4 samples by 4 channels whose sample 1 is below the
threshold on both watched channels: flag 1 and 25 frames carried over. -/
theorem has_eye_blink_detects_witness :
    (1 : Int) ≤ 4 ∧ (4 : Int) ≤ 4 ∧
    (ex_core ex_config_blink).nb_samples = 4 ∧
    (ex_core ex_config_blink).eye_blink_length = 100 ∧
    (ex_core ex_config_blink).next_frame_has_blink = 0 ∧
    2 ≤ occurrences ex_signal_two 4 4 ∧
    (has_eye_blink (ex_core ex_config_blink) ex_signal_two 4 4).map
      (fun r => (r.1, r.2.next_frame_has_blink)) = some (1, 25) ∧
    ∃ onset n : Int,
      (0 ≤ onset ∧ onset < 4 ∧ below_threshold ex_signal_two 4 onset ∧
        ∀ t : Int, 0 ≤ t → t < onset → ¬ below_threshold ex_signal_two 4 t) ∧
      (0 ≤ n ∧ 100 - (4 - onset) - n * 4 ≤ 0 ∧
        ∀ m : Int, 0 ≤ m → m < n → 0 < 100 - (4 - onset) - m * 4) ∧
      n = (if 0 < 100 - (4 - onset) then (100 - (4 - onset) + 4 - 1) / 4 else 0) ∧
      has_eye_blink (ex_core ex_config_blink) ex_signal_two 4 4 =
        some (1, { ex_core ex_config_blink with next_frame_has_blink := n }) :=
  ⟨by decide, by decide, rfl, rfl, rfl, by decide, by decide,
    has_eye_blink_detects (ex_core ex_config_blink) ex_signal_two 4 4 (by decide) (by decide)
      rfl rfl rfl (by decide)⟩

/-- C6.  Carry-over flags exactly `K` frames: from a state with
`next_frame_has_blink = K >= 1` and for `K + 1` windows of any content (`ws`,
then `w`), the first `j <= K` calls of `has_eye_blink` all return 1 and leave
`next_frame_has_blink = K - j` (0 after the `K`-th), and the call on the
`(K+1)`-th window returns the flag and leaves the state that `has_eye_blink`
gives on that window from the same engine with `next_frame_has_blink = 0`. -/
theorem has_eye_blink_carry_over (K : Nat) (_hK : 1 ≤ K) (st : preprocess_core_t)
    (h : st.next_frame_has_blink = (K : Int))
    (ws : List ((Int → ℚ) × Int × Int)) (hlen : ws.length = K) (w : (Int → ℚ) × Int × Int) :
    (∀ j : Nat, j ≤ K →
      has_eye_blink_seq st (ws.take j) =
        some (List.replicate j 1, { st with next_frame_has_blink := (K : Int) - (j : Int) })) ∧
    has_eye_blink_seq st (ws ++ [w]) =
      (has_eye_blink { st with next_frame_has_blink := 0 } w.1 w.2.1 w.2.2).map
        (fun r => (List.replicate K 1 ++ [r.1], r.2)) := by
  constructor
  · intro j hj
    have hl : (ws.take j).length = j := by
      rw [List.length_take]
      omega
    have := has_eye_blink_seq_carrying (ws.take j) st K h (by omega)
    rw [hl] at this
    exact this
  · rw [has_eye_blink_seq_append, has_eye_blink_seq_carrying ws st K h (by omega), hlen]
    simp only [sub_self, has_eye_blink_seq_single]
    cases has_eye_blink { st with next_frame_has_blink := 0 } w.1 w.2.1 w.2.2 with
    | none => rfl
    | some r => rfl


/-- C6 with two pending frames: two windows flagged whatever they hold, then
a quiet window scanned and not flagged. -/
theorem has_eye_blink_carry_over_witness :
    1 ≤ 2 ∧ ex_core_carrying.next_frame_has_blink = ((2 : Nat) : Int) ∧
    [(ex_signal_quiet, (4 : Int), (4 : Int)), (ex_signal_two, 4, 4)].length = 2 ∧
    (has_eye_blink_seq ex_core_carrying
        ([(ex_signal_quiet, (4 : Int), (4 : Int)), (ex_signal_two, 4, 4)] ++
          [(ex_signal_quiet, 4, 4)])).map (fun r => (r.1, r.2.next_frame_has_blink)) =
      some ([1, 1, 0], 0) ∧
    has_eye_blink_seq ex_core_carrying
        ([(ex_signal_quiet, (4 : Int), (4 : Int)), (ex_signal_two, 4, 4)] ++
          [(ex_signal_quiet, 4, 4)]) =
      (has_eye_blink { ex_core_carrying with next_frame_has_blink := 0 }
          ex_signal_quiet 4 4).map (fun r => (List.replicate 2 1 ++ [r.1], r.2)) :=
  ⟨by decide, rfl, rfl, by decide,
    (has_eye_blink_carry_over 2 (by decide) ex_core_carrying rfl
      [(ex_signal_quiet, 4, 4), (ex_signal_two, 4, 4)] rfl (ex_signal_quiet, 4, 4)).2⟩

/-- The blink switch of the engine is the option of the configuration. -/
theorem init_preprocess_core_blink_option (config : appconfig_t) (st0 : preprocess_core_t)
    (m_avg m_wo_avg m_transposed m_dft : Int → ℚ) :
    (init_preprocess_core config st0 m_avg m_wo_avg m_transposed m_dft).2.eye_blink_detect =
      config.muse_eyeblink_detect := rfl

/-- C7.  Blink detection disabled: when the blink switch of the engine (the
copy `init_preprocess_core` makes of the configuration option) is off, for
every window, every detector state and every prior content of the output
record, `preprocess_data` returns, sets `frame_status.eye_blink_detected` to 0
and leaves `next_frame_has_blink` as it was. -/
theorem preprocess_data_blink_disabled
    (abs_dft_interval : (Int → ℚ) → Int → Int → Int → (Int → ℚ))
    (st : preprocess_core_t) (data_input : data_t) (feature_output : feature_buf_t ℚ)
    (h_off : st.eye_blink_detect = false) :
    ∃ r, preprocess_data abs_dft_interval st data_input feature_output = some r ∧
      r.2.2.frame_status.eye_blink_detected = 0 ∧
      r.2.1.next_frame_has_blink = st.next_frame_has_blink := by
  unfold preprocess_data
  simp only [h_off]
  exact ⟨_, rfl, rfl, rfl⟩

/-- C7 at an engine configured without blink detection, on an output record
whose flag was left at 1. -/
theorem preprocess_data_blink_disabled_witness :
    (ex_core ex_config_odd).eye_blink_detect = false ∧
    ∃ r, preprocess_data ex_dft (ex_core ex_config_odd) ex_window ex_output = some r ∧
      r.2.2.frame_status.eye_blink_detected = 0 ∧
      r.2.1.next_frame_has_blink = (ex_core ex_config_odd).next_frame_has_blink :=
  ⟨rfl, preprocess_data_blink_disabled ex_dft (ex_core ex_config_odd) ex_window ex_output rfl⟩

/-- C8.  Feature-vector length: after `init_preprocess_core` on a config with
`C` channels and window width `W`, `feature_vect_length` is
`[timeseries]*W*C + [spectral]*(W/2)*C + [alpha]*C + [beta]*C + [gamma]*C`,
with the truncating division of C and each bracket 1 when the kind is enabled
and 0 otherwise (blink adds nothing); every call of `preprocess_data` returns
and leaves `feature_vect_length` as it was; and with `C = 4`, `W = 256` and the
spectral kind only the length is 512. -/
theorem feature_vect_length_formula :
    (∀ (config : appconfig_t) (st0 : preprocess_core_t) (m_avg m_wo_avg m_transposed m_dft : Int → ℚ),
      (init_preprocess_core config st0 m_avg m_wo_avg m_transposed m_dft).2.feature_vect_length =
        (if config.timeseries then 1 else 0) * config.window_width * config.nb_channels +
        (if config.fft then 1 else 0) * (config.window_width.tdiv 2) * config.nb_channels +
        (if config.power_alpha then 1 else 0) * config.nb_channels +
        (if config.power_beta then 1 else 0) * config.nb_channels +
        (if config.power_gamma then 1 else 0) * config.nb_channels) ∧
    (∀ (abs_dft_interval : (Int → ℚ) → Int → Int → Int → (Int → ℚ)) (st : preprocess_core_t)
        (data_input : data_t) (feature_output : feature_buf_t ℚ),
      ∃ r, preprocess_data abs_dft_interval st data_input feature_output = some r ∧
        r.2.1.feature_vect_length = st.feature_vect_length) ∧
    (∀ (blink : Bool) (st0 : preprocess_core_t) (m_avg m_wo_avg m_transposed m_dft : Int → ℚ),
      (init_preprocess_core
        { nb_channels := 4, window_width := 256, timeseries := false, fft := true,
          power_alpha := false, power_beta := false, power_gamma := false,
          muse_eyeblink_detect := blink } st0 m_avg m_wo_avg m_transposed m_dft).2.feature_vect_length
        = 512) := by
  refine ⟨?_, ?_, ?_⟩
  · intro config st0 _ _ _ _
    unfold init_preprocess_core
    cases config.timeseries <;> cases config.fft <;> cases config.power_alpha <;>
      cases config.power_beta <;> cases config.power_gamma <;> simp
  · intro abs_dft_interval st data_input feature_output
    obtain ⟨r, hr, _, hl, _⟩ := preprocess_data_returns abs_dft_interval st data_input feature_output
    exact ⟨r, hr, hl⟩
  · intro blink st0 _ _ _ _
    rfl

/-- C10, evaluated where the code departs from it.  With 3 channels, windows
of 3 samples and the spectral kind only, `init_preprocess_core` computes a
length of 3, and `preprocess_data` stores at the indices 0, 1 and 3 of the
feature array, whatever the transform primitive and the window: index 3 is
not below the length. -/
theorem fft_store_past_length :
    1 ≤ (ex_core ex_config_odd).nb_channels ∧ 1 ≤ (ex_core ex_config_odd).nb_samples ∧
    (ex_core ex_config_odd).fft_enabled = true ∧
    (ex_core ex_config_odd).feature_vect_length = 3 ∧
    ∀ (abs_dft_interval : (Int → ℚ) → Int → Int → Int → (Int → ℚ)) (data_input : data_t),
      (preprocess_stores abs_dft_interval (ex_core ex_config_odd) data_input).map Prod.fst =
        [0, 1, 3] ∧
      ¬ (∀ idx ∈ (preprocess_stores abs_dft_interval (ex_core ex_config_odd) data_input).map
            Prod.fst, idx < (ex_core ex_config_odd).feature_vect_length) := by
  refine ⟨by decide, by decide, rfl, rfl, ?_⟩
  intro abs_dft_interval data_input
  have h : (preprocess_stores abs_dft_interval (ex_core ex_config_odd) data_input).map Prod.fst =
      [0, 1, 3] := rfl
  rw [h]
  exact ⟨rfl, by decide⟩

/-- C9, evaluated where the code departs from it.  With 3 channels and
windows of 3 samples (`W/2 = 1`), position `2*(W/2) + 0 = 2` of the feature
array keeps its prior content, whatever the transform primitive, the window
and the output record, and the magnitude of channel 2 goes to position 3; on
a zeroed feature array with a primitive that answers 7, position 2 holds 0
and not 7. -/
theorem fft_layout_gap :
    (∀ (abs_dft_interval : (Int → ℚ) → Int → Int → Int → (Int → ℚ)) (data_input : data_t)
        (feature_output : feature_buf_t ℚ),
      ∃ r, preprocess_data abs_dft_interval (ex_core ex_config_odd) data_input feature_output =
          some r ∧
        r.2.2.featvect_ptr (2 * ((3 : Int).tdiv 2) + 0) = feature_output.featvect_ptr 2 ∧
        r.2.2.featvect_ptr 3 =
          abs_dft_interval
            (fun t => (preprocess_buffers abs_dft_interval (ex_core ex_config_odd)
              data_input).signals_transposed (2 * 3 + t)) 3 0 ((3 : Int).tdiv 2) 0) ∧
    (preprocess_data ex_dft (ex_core ex_config_odd) ex_window ex_output).map
        (fun r => r.2.2.featvect_ptr (2 * ((3 : Int).tdiv 2) + 0)) = some 0 ∧
    ex_dft (fun t => (preprocess_buffers ex_dft (ex_core ex_config_odd)
        ex_window).signals_transposed (2 * 3 + t)) 3 0 ((3 : Int).tdiv 2) 0 = 7 := by
  refine ⟨?_, by decide, rfl⟩
  intro abs_dft_interval data_input feature_output
  obtain ⟨r, hr, _, _, _, _, _, hfa⟩ :=
    preprocess_data_returns abs_dft_interval (ex_core ex_config_odd) data_input feature_output
  refine ⟨r, hr, ?_, ?_⟩
  · rw [hfa]
    exact apply_stores_not_mem _ _ _ (by
      rw [fft_store_indices_odd]
      decide)
  · rw [hfa]
    rfl

/-! ## Lemmas on the counted loops, the mean and the transpose -/

/-- One more iteration of a counted loop. -/
theorem for_loop_succ {σ : Type} (k : Nat) (body : Int → σ → σ) (s : σ) :
    for_loop ((k : Int) + 1) body s = body (k : Int) (for_loop (k : Int) body s) := by
  unfold for_loop
  have h1 : ((k : Int) + 1).toNat = k + 1 := by omega
  have h2 : (k : Int).toNat = k := by omega
  rw [h1, h2, List.range_succ, List.foldl_append]
  rfl

/-- A counted loop with no iteration. -/
theorem for_loop_zero {σ : Type} (n : Int) (hn : n ≤ 0) (body : Int → σ → σ) (s : σ) :
    for_loop n body s = s := by
  unfold for_loop
  have h : n.toNat = 0 := by omega
  rw [h]
  rfl

/-- A loop that updates cell `j` of a buffer at iteration `j` from its own
value: every cell below the bound is updated once, the others are kept. -/
theorem for_loop_update {cell : Type} (f : Int → cell → cell) (m0 : Int → cell) (k : Nat) :
    for_loop (k : Int) (fun j m => store m j (f j (m j))) m0 =
      fun x => if 0 ≤ x ∧ x < (k : Int) then f x (m0 x) else m0 x := by
  induction k with
  | zero =>
    rw [for_loop_zero _ (by simp)]
    funext x
    have h : ¬ (0 ≤ x ∧ x < ((0 : Nat) : Int)) := by omega
    rw [if_neg h]
  | succ k ih =>
    have hc : ((k + 1 : Nat) : Int) = (k : Int) + 1 := by push_cast; rfl
    rw [hc, for_loop_succ, ih]
    funext x
    have hk : ¬ (0 ≤ (k : Int) ∧ (k : Int) < (k : Int)) := by omega
    simp only [if_neg hk, store]
    by_cases hx : x = (k : Int)
    · subst hx
      have h2 : 0 ≤ (k : Int) ∧ (k : Int) < (k : Int) + 1 := by omega
      simp [h2]
    · rw [Function.update_noteq hx]
      by_cases hlt : 0 ≤ x ∧ x < (k : Int)
      · have h2 : 0 ≤ x ∧ x < (k : Int) + 1 := by omega
        rw [if_pos hlt, if_pos h2]
      · have h2 : ¬ (0 ≤ x ∧ x < (k : Int) + 1) := by omega
        rw [if_neg hlt, if_neg h2]

/-- A loop of stores at indices that the loop counter does not reach leaves
the cell alone. -/
theorem for_loop_store_miss {cell : Type} (g : Int → Int) (v : Int → (Int → cell) → cell)
    (x : Int) (k : Nat) (b0 : Int → cell)
    (hmiss : ∀ j : Int, 0 ≤ j → j < (k : Int) → g j ≠ x) :
    for_loop (k : Int) (fun j b => store b (g j) (v j b)) b0 x = b0 x := by
  induction k with
  | zero => rw [for_loop_zero _ (by simp)]
  | succ k ih =>
    have hc : ((k + 1 : Nat) : Int) = (k : Int) + 1 := by push_cast; rfl
    rw [hc] at hmiss ⊢
    rw [for_loop_succ]
    have hne : x ≠ g (k : Int) := fun h => hmiss (k : Int) (by omega) (by omega) h.symm
    simp only [store, Function.update_noteq hne]
    exact ih (fun j hj0 hj1 => hmiss j hj0 (by omega))

/-- A loop of stores at pairwise distinct indices leaves at the index of
iteration `j` the value stored by that iteration. -/
theorem for_loop_store_hit {cell : Type} (g : Int → Int) (v : Int → cell)
    (k : Nat) (b0 : Int → cell)
    (hinj : ∀ j1 j2 : Int, 0 ≤ j1 → j1 < (k : Int) → 0 ≤ j2 → j2 < (k : Int) →
      g j1 = g j2 → j1 = j2)
    (j : Int) (hj0 : 0 ≤ j) (hj1 : j < (k : Int)) :
    for_loop (k : Int) (fun j b => store b (g j) (v j)) b0 (g j) = v j := by
  induction k with
  | zero => omega
  | succ k ih =>
    have hc : ((k + 1 : Nat) : Int) = (k : Int) + 1 := by push_cast; rfl
    rw [hc] at hinj hj1 ⊢
    rw [for_loop_succ]
    by_cases hjk : j = (k : Int)
    · subst hjk
      simp [store]
    · have hne : g j ≠ g (k : Int) := fun h =>
        hjk (hinj j (k : Int) hj0 hj1 (by omega) (by omega) h)
      simp only [store, Function.update_noteq hne]
      exact ih (fun j1 j2 a1 a2 a3 a4 => hinj j1 j2 a1 (by omega) a3 (by omega)) (by omega)

/-- Two nested loops of stores at pairwise distinct indices leave at the index
of iteration `(i, j)` the value stored by that iteration. -/
theorem nested_store_hit {cell : Type} (G : Int → Int → Int) (V : Int → Int → cell) (m : Nat)
    (n : Nat) (b0 : Int → cell)
    (hinj : ∀ i1 j1 i2 j2 : Int, 0 ≤ i1 → i1 < (n : Int) → 0 ≤ j1 → j1 < (m : Int) →
      0 ≤ i2 → i2 < (n : Int) → 0 ≤ j2 → j2 < (m : Int) →
      G i1 j1 = G i2 j2 → i1 = i2 ∧ j1 = j2)
    (i j : Int) (hi0 : 0 ≤ i) (hi1 : i < (n : Int)) (hj0 : 0 ≤ j) (hj1 : j < (m : Int)) :
    for_loop (n : Int)
        (fun i b1 => for_loop (m : Int) (fun j b2 => store b2 (G i j) (V i j)) b1) b0 (G i j) =
      V i j := by
  induction n with
  | zero => omega
  | succ n ih =>
    have hc : ((n + 1 : Nat) : Int) = (n : Int) + 1 := by push_cast; rfl
    rw [hc] at hinj hi1 ⊢
    rw [for_loop_succ]
    by_cases hin : i = (n : Int)
    · subst hin
      exact for_loop_store_hit (G (n : Int)) (V (n : Int)) m _
        (fun j1 j2 a1 a2 a3 a4 h =>
          (hinj (n : Int) j1 (n : Int) j2 (by omega) (by omega) a1 a2 (by omega) (by omega)
            a3 a4 h).2)
        j hj0 hj1
    · rw [for_loop_store_miss (G (n : Int)) (fun j _ => V (n : Int) j) (G i j) m _
        (fun j2 a1 a2 h =>
          hin (hinj i j (n : Int) j2 hi0 hi1 hj0 hj1 (by omega) (by omega) a1 a2 h.symm).1)]
      exact ih
        (fun i1 j1 i2 j2 a1 a2 a3 a4 a5 a6 a7 a8 =>
          hinj i1 j1 i2 j2 a1 (by omega) a3 a4 a5 (by omega) a7 a8)
        (by omega)

/-- Row-major indices of a matrix with `C` columns are pairwise distinct. -/
theorem row_major_inj (C i1 j1 i2 j2 : Int) (h1 : 0 ≤ j1) (h2 : j1 < C) (h3 : 0 ≤ j2)
    (h4 : j2 < C) (h : i1 * C + j1 = i2 * C + j2) : i1 = i2 ∧ j1 = j2 := by
  have hC : 0 < C := by omega
  have e1 : (i1 * C + j1) / C = i1 := by
    rw [Int.add_comm, Int.add_mul_ediv_right _ _ (by omega), Int.ediv_eq_zero_of_lt h1 h2]
    omega
  have e2 : (i2 * C + j2) / C = i2 := by
    rw [Int.add_comm, Int.add_mul_ediv_right _ _ (by omega), Int.ediv_eq_zero_of_lt h3 h4]
    omega
  have hi : i1 = i2 := by rw [← e1, ← e2, h]
  subst hi
  exact ⟨rfl, by omega⟩

/-- Function `remove_mean_col` on the cells of the matrix. -/
theorem remove_mean_col_spec (a mean b : Int → ℚ) (dim_i dim_j : Int)
    (i j : Int) (hi0 : 0 ≤ i) (hi1 : i < dim_i) (hj0 : 0 ≤ j) (hj1 : j < dim_j) :
    remove_mean_col a mean b dim_i dim_j (i * dim_j + j) = a (i * dim_j + j) - mean j := by
  have hI : 0 ≤ dim_i := by omega
  have hJ : 0 ≤ dim_j := by omega
  lift dim_i to ℕ using hI with n
  lift dim_j to ℕ using hJ with m
  unfold remove_mean_col
  exact nested_store_hit (fun i j => i * (m : Int) + j) (fun i j => a (i * (m : Int) + j) - mean j)
    m n b
    (fun i1 j1 i2 j2 _ _ a3 a4 _ _ a7 a8 h => row_major_inj (m : Int) i1 j1 i2 j2 a3 a4 a7 a8 h)
    i j hi0 hi1 hj0 hj1

/-- Function `mtx_transpose` on the cells of the matrix. -/
theorem mtx_transpose_spec (A A_prime : Int → ℚ) (dim_i dim_j : Int)
    (i j : Int) (hi0 : 0 ≤ i) (hi1 : i < dim_i) (hj0 : 0 ≤ j) (hj1 : j < dim_j) :
    mtx_transpose A A_prime dim_i dim_j (j * dim_i + i) = A (i * dim_j + j) := by
  have hI : 0 ≤ dim_i := by omega
  have hJ : 0 ≤ dim_j := by omega
  lift dim_i to ℕ using hI with n
  lift dim_j to ℕ using hJ with m
  unfold mtx_transpose
  exact nested_store_hit (fun i j => j * (n : Int) + i) (fun i j => A (i * (m : Int) + j))
    m n A_prime
    (fun i1 j1 i2 j2 a1 a2 _ _ a5 a6 _ _ h =>
      (row_major_inj (n : Int) j1 i1 j2 i2 a1 a2 a5 a6 h).symm)
    i j hi0 hi1 hj0 hj1

/-- The summing loop of `stat_mean`: every column cell gains the sum of its
column. -/
theorem stat_mean_sum_loop (a : Int → ℚ) (m : Nat) (n : Nat) (m0 : Int → ℚ) :
    for_loop (n : Int)
        (fun i m1 => for_loop (m : Int) (fun j m2 => store m2 j (m2 j + a (j + i * (m : Int)))) m1)
        m0 =
      fun x => if 0 ≤ x ∧ x < (m : Int) then
        m0 x + Finset.sum (Finset.range n) (fun t => a (x + (t : Int) * (m : Int)))
      else m0 x := by
  induction n with
  | zero =>
    rw [for_loop_zero _ (by simp)]
    funext x
    simp
  | succ n ih =>
    have hc : ((n + 1 : Nat) : Int) = (n : Int) + 1 := by push_cast; rfl
    rw [hc, for_loop_succ, ih]
    have hin := for_loop_update (fun j old => old + a (j + (n : Int) * (m : Int)))
      (fun x => if 0 ≤ x ∧ x < (m : Int) then
        m0 x + Finset.sum (Finset.range n) (fun t => a (x + (t : Int) * (m : Int)))
      else m0 x) m
    simp only [] at hin ⊢
    rw [hin]
    funext x
    by_cases hx : 0 ≤ x ∧ x < (m : Int)
    · simp only [if_pos hx, Finset.sum_range_succ]
      ring
    · simp only [if_neg hx]

/-- Function `stat_mean`: the cells `0 .. dim_j - 1` of `mean` receive the
column sums divided by `dim_i`, the other cells are kept. -/
theorem stat_mean_spec (a mean : Int → ℚ) (dim_i dim_j : Int) (hI : 0 ≤ dim_i)
    (hJ : 0 ≤ dim_j) :
    stat_mean a mean dim_i dim_j =
      fun x => if 0 ≤ x ∧ x < dim_j then
        Finset.sum (Finset.range dim_i.toNat) (fun t => a (x + (t : Int) * dim_j)) / (dim_i : ℚ)
      else mean x := by
  lift dim_i to ℕ using hI with n
  lift dim_j to ℕ using hJ with m
  unfold stat_mean
  have h0 := for_loop_update (fun _ _ => (0 : ℚ)) mean m
  simp only [] at h0 ⊢
  rw [h0, stat_mean_sum_loop]
  have h2 := for_loop_update (fun _ old => old / (((n : Int)) : ℚ))
    (fun x => if 0 ≤ x ∧ x < (m : Int) then
      (fun x => if 0 ≤ x ∧ x < (m : Int) then (0 : ℚ) else mean x) x +
        Finset.sum (Finset.range n) (fun t => a (x + (t : Int) * (m : Int)))
      else (fun x => if 0 ≤ x ∧ x < (m : Int) then (0 : ℚ) else mean x) x) m
  simp only [] at h2
  rw [h2]
  funext x
  have hn : ((n : Int)).toNat = n := by omega
  rw [hn]
  by_cases hx : 0 ≤ x ∧ x < (m : Int)
  · simp only [if_pos hx, zero_add]
  · simp only [if_neg hx]


/-- The mean of a channel, cell `c` of the result of `stat_mean`. -/
theorem stat_mean_channel (a mean : Int → ℚ) (W C : Int) (hW : 0 ≤ W) (c : Int) (hc0 : 0 ≤ c)
    (hc1 : c < C) :
    stat_mean a mean W C c =
      (1 / (W : ℚ)) * Finset.sum (Finset.range W.toNat) (fun t => a ((t : Int) * C + c)) := by
  rw [stat_mean_spec a mean W C hW (by omega)]
  simp only [if_pos (And.intro hc0 hc1)]
  rw [div_eq_mul_one_div, mul_comm]
  congr 1
  apply Finset.sum_congr rfl
  intro t _
  rw [Int.add_comm]

/-- The centred signal has mean 0 on every channel. -/
theorem centred_mean_zero (a mean b mean2 : Int → ℚ) (W C : Int) (hW : 1 ≤ W) (c : Int)
    (hc0 : 0 ≤ c) (hc1 : c < C) :
    stat_mean (remove_mean_col a (stat_mean a mean W C) b W C) mean2 W C c = 0 := by
  rw [stat_mean_channel _ mean2 W C (by omega) c hc0 hc1]
  have hsum : Finset.sum (Finset.range W.toNat)
      (fun t => remove_mean_col a (stat_mean a mean W C) b W C ((t : Int) * C + c)) =
      Finset.sum (Finset.range W.toNat)
        (fun t => a ((t : Int) * C + c) - stat_mean a mean W C c) := by
    apply Finset.sum_congr rfl
    intro t ht
    have ht2 : t < W.toNat := Finset.mem_range.mp ht
    exact remove_mean_col_spec a _ b W C (t : Int) c (by omega) (by omega) hc0 hc1
  rw [hsum, Finset.sum_sub_distrib, Finset.sum_const, Finset.card_range, nsmul_eq_mul,
    stat_mean_channel a mean W C (by omega) c hc0 hc1]
  have hcast : ((W.toNat : ℕ) : ℚ) = (W : ℚ) := by
    have h : ((W.toNat : ℕ) : Int) = W := by omega
    exact_mod_cast h
  have hne : (W : ℚ) ≠ 0 := by
    have : (0 : ℚ) < (W : ℚ) := by exact_mod_cast (show (0 : Int) < W by omega)
    exact ne_of_gt this
  rw [hcast]
  field_simp

/-- Mean and centred cells of the window `[[1,2],[3,4],[5,6],[7,8]]`. -/
theorem dc_removal_example (mean b : Int → ℚ) :
    stat_mean ex_window_dc mean 4 2 0 = 4 ∧ stat_mean ex_window_dc mean 4 2 1 = 5 ∧
    (List.range 8).map
        (fun (k : Nat) =>
          remove_mean_col ex_window_dc (stat_mean ex_window_dc mean 4 2) b 4 2 (k : Int)) =
      [-3, -3, -1, -1, 1, 1, 3, 3] := by
  have h0 : stat_mean ex_window_dc mean 4 2 0 = 4 := by
    rw [stat_mean_channel ex_window_dc mean 4 2 (by decide) 0 (by decide) (by decide)]
    have h4 : (4 : Int).toNat = 4 := rfl
    rw [h4]
    simp only [Finset.sum_range_succ, Finset.sum_range_zero, ex_window_dc]
    norm_num
  have h1 : stat_mean ex_window_dc mean 4 2 1 = 5 := by
    rw [stat_mean_channel ex_window_dc mean 4 2 (by decide) 1 (by decide) (by decide)]
    have h4 : (4 : Int).toNat = 4 := rfl
    rw [h4]
    simp only [Finset.sum_range_succ, Finset.sum_range_zero, ex_window_dc]
    norm_num
  refine ⟨h0, h1, ?_⟩
  have hcell : ∀ (t c : Int), 0 ≤ t → t < 4 → 0 ≤ c → c < 2 →
      remove_mean_col ex_window_dc (stat_mean ex_window_dc mean 4 2) b 4 2 (t * 2 + c) =
        ex_window_dc (t * 2 + c) - stat_mean ex_window_dc mean 4 2 c :=
    fun t c a1 a2 a3 a4 => remove_mean_col_spec _ _ b 4 2 t c a1 a2 a3 a4
  have c0 := hcell 0 0 (by decide) (by decide) (by decide) (by decide)
  have c1 := hcell 0 1 (by decide) (by decide) (by decide) (by decide)
  have c2 := hcell 1 0 (by decide) (by decide) (by decide) (by decide)
  have c3 := hcell 1 1 (by decide) (by decide) (by decide) (by decide)
  have c4 := hcell 2 0 (by decide) (by decide) (by decide) (by decide)
  have c5 := hcell 2 1 (by decide) (by decide) (by decide) (by decide)
  have c6 := hcell 3 0 (by decide) (by decide) (by decide) (by decide)
  have c7 := hcell 3 1 (by decide) (by decide) (by decide) (by decide)
  rw [h0] at c0 c2 c4 c6
  rw [h1] at c1 c3 c5 c7
  norm_num [ex_window_dc] at c0 c1 c2 c3 c4 c5 c6 c7
  simp only [List.range, List.range.loop, List.map]
  norm_num
  exact ⟨c0, c1, c2, c3, c4, c5, c6, c7⟩

/-! ## Claims on the mean removal and the transpose -/

/-- C11.  DC removal gives zero-mean channels, in exact arithmetic: for a
window of `W >= 1` samples by `C >= 1` channels, `stat_mean` returns
`mean[c] = (1/W) * sum over t of sample[t,c]`, `remove_mean_col` returns
`centred[t,c] = sample[t,c] - mean[c]`, and the mean of the centred output is
0 on every channel; for the window `[[1,2],[3,4],[5,6],[7,8]]` (`C = 2`,
`W = 4`) the mean is `[4,5]` and the centred output is
`[[-3,-3],[-1,-1],[1,1],[3,3]]`. -/
theorem dc_removal_zero_mean (a mean b mean2 : Int → ℚ) (W C : Int) (hW : 1 ≤ W)
    (_hC : 1 ≤ C) :
    (∀ c : Int, 0 ≤ c → c < C →
      stat_mean a mean W C c =
        (1 / (W : ℚ)) * Finset.sum (Finset.range W.toNat) (fun t => a ((t : Int) * C + c))) ∧
    (∀ t c : Int, 0 ≤ t → t < W → 0 ≤ c → c < C →
      remove_mean_col a (stat_mean a mean W C) b W C (t * C + c) =
        a (t * C + c) - stat_mean a mean W C c) ∧
    (∀ c : Int, 0 ≤ c → c < C →
      stat_mean (remove_mean_col a (stat_mean a mean W C) b W C) mean2 W C c = 0) ∧
    (stat_mean ex_window_dc mean 4 2 0 = 4 ∧ stat_mean ex_window_dc mean 4 2 1 = 5 ∧
      (List.range 8).map
          (fun (k : Nat) =>
            remove_mean_col ex_window_dc (stat_mean ex_window_dc mean 4 2) b 4 2 (k : Int)) =
        [-3, -3, -1, -1, 1, 1, 3, 3]) :=
  ⟨fun c hc0 hc1 => stat_mean_channel a mean W C (by omega) c hc0 hc1,
    fun t c ht0 ht1 hc0 hc1 => remove_mean_col_spec a _ b W C t c ht0 ht1 hc0 hc1,
    fun c hc0 hc1 => centred_mean_zero a mean b mean2 W C hW c hc0 hc1,
    dc_removal_example mean b⟩

/-- C11 at the window `[[1,2],[3,4],[5,6],[7,8]]`: the centred output has mean
0 on channel 1. -/
theorem dc_removal_zero_mean_witness :
    (1 : Int) ≤ 4 ∧ (1 : Int) ≤ 2 ∧
    stat_mean
      (remove_mean_col ex_window_dc (stat_mean ex_window_dc (fun _ => 0) 4 2) (fun _ => 0) 4 2)
      (fun _ => 0) 4 2 1 = 0 :=
  ⟨by decide, by decide,
    (dc_removal_zero_mean ex_window_dc (fun _ => 0) (fun _ => 0) (fun _ => 0) 4 2 (by decide)
      (by decide)).2.2.1 1 (by decide) (by decide)⟩

/-- C12.  Transpose is an involution: for a row-major matrix `A` of `dim_i`
rows by `dim_j` columns, `mtx_transpose` yields `A'` with
`A'[j*dim_i + i] = A[i*dim_j + j]` for all `i < dim_i`, `j < dim_j`, and
`mtx_transpose` applied to `A'` with the dimensions `(dim_j, dim_i)` gives back
`A[i*dim_j + j]` at `i*dim_j + j`, whatever the prior content of the two
destination buffers. -/
theorem mtx_transpose_involution (A A_prime A_second : Int → ℚ) (dim_i dim_j : Int)
    (i j : Int) (hi0 : 0 ≤ i) (hi1 : i < dim_i) (hj0 : 0 ≤ j) (hj1 : j < dim_j) :
    mtx_transpose A A_prime dim_i dim_j (j * dim_i + i) = A (i * dim_j + j) ∧
    mtx_transpose (mtx_transpose A A_prime dim_i dim_j) A_second dim_j dim_i (i * dim_j + j) =
      A (i * dim_j + j) := by
  refine ⟨mtx_transpose_spec A A_prime dim_i dim_j i j hi0 hi1 hj0 hj1, ?_⟩
  rw [mtx_transpose_spec _ A_second dim_j dim_i j i hj0 hj1 hi0 hi1]
  exact mtx_transpose_spec A A_prime dim_i dim_j i j hi0 hi1 hj0 hj1

/-- C12 at row 1, column 2 of a matrix of 2 rows by 3 columns. -/
theorem mtx_transpose_involution_witness :
    (0 : Int) ≤ 1 ∧ (1 : Int) < 2 ∧ (0 : Int) ≤ 2 ∧ (2 : Int) < 3 ∧
    mtx_transpose ex_matrix (fun _ => 0) 2 3 (2 * 2 + 1) = ex_matrix (1 * 3 + 2) ∧
    mtx_transpose (mtx_transpose ex_matrix (fun _ => 0) 2 3) (fun _ => 0) 3 2 (1 * 3 + 2) =
      ex_matrix (1 * 3 + 2) :=
  ⟨by decide, by decide, by decide, by decide,
    mtx_transpose_involution ex_matrix (fun _ => 0) (fun _ => 0) 2 3 1 2 (by decide) (by decide)
      (by decide) (by decide)⟩

/-! ## Lemmas on the runs of the publisher -/

/-- What a call of `shm_wrt_write_to_buf` never changes. -/
theorem write_keeps (this_shm : shm_output_t) (feat_vect : feature_buf_t Int) :
    (shm_wrt_write_to_buf this_shm feat_vect).2.options = this_shm.options ∧
    (shm_wrt_write_to_buf this_shm feat_vect).2.page_size = this_shm.page_size ∧
    (shm_wrt_write_to_buf this_shm feat_vect).2.total_buffer_size = this_shm.total_buffer_size := by
  by_cases h : 1 ≤ this_shm.sem_set APP_IN_READY
  · rw [write_written this_shm feat_vect h]
    exact ⟨rfl, rfl, rfl⟩
  · rw [write_skipped this_shm feat_vect (by omega)]
    exact ⟨rfl, rfl, rfl⟩

/-- The write cursor after a call of `shm_wrt_write_to_buf`. -/
theorem write_cursor (this_shm : shm_output_t) (feat_vect : feature_buf_t Int)
    (h_depth : 1 ≤ this_shm.options.buffer_depth) (h_page : 0 ≤ this_shm.current_page) :
    (shm_wrt_write_to_buf this_shm feat_vect).2.current_page =
      if 1 ≤ this_shm.sem_set APP_IN_READY then
        (this_shm.current_page + 1) % this_shm.options.buffer_depth
      else this_shm.current_page := by
  by_cases h : 1 ≤ this_shm.sem_set APP_IN_READY
  · rw [write_written this_shm feat_vect h, if_pos h]
    exact Int.tmod_eq_emod (by omega) (by omega)
  · rw [write_skipped this_shm feat_vect (by omega), if_neg h]

/-- An event keeps the invariant of the publisher. -/
theorem publisher_step_inv (options : shm_output_options_t) (h_depth : 1 ≤ options.buffer_depth)
    (st : shm_output_t) (ev : publisher_event) (h : publisher_inv options st) :
    publisher_inv options (publisher_step st ev) := by
  obtain ⟨h1, h2, h3, h4, h5⟩ := h
  cases ev with
  | sem_activity sem_set => exact ⟨h1, h2, h3, h4, h5⟩
  | write feat_vect =>
    obtain ⟨k1, k2, k3⟩ := write_keeps st feat_vect
    have kc := write_cursor st feat_vect (by rw [h1]; exact h_depth) h4
    rw [h1] at kc
    simp only [publisher_step]
    refine ⟨by rw [k1, h1], by rw [k2, h2], by rw [k3, k2, h3], ?_, ?_⟩
    · rw [kc]
      split
      · exact Int.emod_nonneg _ (by omega)
      · exact h4
    · rw [kc]
      split
      · exact Int.emod_lt_of_pos _ (by omega)
      · exact h5

/-- A run keeps the invariant of the publisher. -/
theorem publisher_run_inv (options : shm_output_options_t) (h_depth : 1 ≤ options.buffer_depth) :
    ∀ (events : List publisher_event) (st : shm_output_t), publisher_inv options st →
      publisher_inv options (publisher_run st events) := by
  intro events
  induction events with
  | nil =>
    intro st h
    exact h
  | cons ev events ih =>
    intro st h
    exact ih (publisher_step st ev) (publisher_step_inv options h_depth st ev h)

/-- The publisher that `shm_wrt_init` returns satisfies the invariant. -/
theorem shm_wrt_init_inv (options : shm_output_options_t) (h_depth : 1 ≤ options.buffer_depth)
    (env : ipc_env) (st0 : shm_output_t) (h_init : shm_wrt_init options env = some st0) :
    publisher_inv options st0 := by
  obtain ⟨h1, h2, h3, h4, _, _, _⟩ := shm_wrt_init_some options env st0 h_init
  exact ⟨h1, h2, h3, by omega, by omega⟩

/-- Every publisher satisfies the invariant. -/
theorem is_publisher_inv (options : shm_output_options_t) (h_depth : 1 ≤ options.buffer_depth)
    (st : shm_output_t) (h : is_publisher options st) : publisher_inv options st := by
  obtain ⟨env, st0, events, h_init, rfl⟩ := h
  exact publisher_run_inv options h_depth events st0
    (shm_wrt_init_inv options h_depth env st0 h_init)

/-- The write cursor after a run: one page further per write done, cyclically. -/
theorem publisher_run_cursor (options : shm_output_options_t)
    (h_depth : 1 ≤ options.buffer_depth) :
    ∀ (events : List publisher_event) (st : shm_output_t), publisher_inv options st →
      (publisher_run st events).current_page =
        (st.current_page + (writes_done st events : Int)) % options.buffer_depth := by
  intro events
  induction events with
  | nil =>
    intro st h
    obtain ⟨_, _, _, h4, h5⟩ := h
    simp only [publisher_run, List.foldl_nil, writes_done, Nat.cast_zero, Int.add_zero]
    exact (Int.emod_eq_of_lt h4 h5).symm
  | cons ev events ih =>
    intro st h
    have hstep := publisher_step_inv options h_depth st ev h
    have hrec := ih (publisher_step st ev) hstep
    obtain ⟨h1, _, _, h4, h5⟩ := h
    show (publisher_run (publisher_step st ev) events).current_page = _
    rw [hrec]
    cases ev with
    | sem_activity sem_set =>
      simp only [writes_done]
      rfl
    | write feat_vect =>
      have kc := write_cursor st feat_vect (by rw [h1]; exact h_depth) h4
      rw [h1] at kc
      simp only [writes_done, publisher_step] at kc ⊢
      rw [kc]
      by_cases hr : 1 ≤ st.sem_set APP_IN_READY
      · simp only [if_pos hr]
        push_cast
        rw [Int.emod_add_emod, Int.add_assoc]
      · simp only [if_neg hr]
        push_cast
        rw [Int.zero_add]

/-- Effects of a call whose try-acquire succeeds. -/
theorem write_effects_written (this_shm : shm_output_t) (feat_vect : feature_buf_t Int)
    (h : 1 ≤ this_shm.sem_set APP_IN_READY) :
    shm_wrt_write_effects this_shm feat_vect =
      [ .sem_call { sem_num := APP_IN_READY, sem_op := -1, sem_flg := IPC_NOWAIT },
        .copy (this_shm.page_size * this_shm.current_page)
          (frame_info_bytes feat_vect.frame_status) sizeof_frame_info_t,
        .copy (this_shm.page_size * this_shm.current_page + sizeof_frame_info_t)
          feat_vect.featvect_ptr (to_size_t (to_size_t feat_vect.nb_features * sizeof_double)),
        .set_page (this_shm.current_page + 1),
        .set_page ((this_shm.current_page + 1).tmod this_shm.options.buffer_depth),
        .sem_call
          { sem_num := PREPROC_OUT_READY, sem_op := 1, sem_flg := Int.lor SEM_UNDO IPC_NOWAIT } ] := by
  simp [shm_wrt_write_effects, semop_try_acquire, h]

/-- Effects of a call whose try-acquire fails. -/
theorem write_effects_skipped (this_shm : shm_output_t) (feat_vect : feature_buf_t Int)
    (h : this_shm.sem_set APP_IN_READY < 1) :
    shm_wrt_write_effects this_shm feat_vect =
      [ .sem_call { sem_num := APP_IN_READY, sem_op := -1, sem_flg := IPC_NOWAIT } ] := by
  have h2 : ¬ (1 ≤ this_shm.sem_set APP_IN_READY) := by omega
  simp [shm_wrt_write_effects, semop_try_acquire, h2]

/-- The effects, applied in order, give the publisher that the function returns. -/
theorem write_effects_sound (this_shm : shm_output_t) (feat_vect : feature_buf_t Int) :
    (shm_wrt_write_effects this_shm feat_vect).foldl apply_write_effect this_shm =
      (shm_wrt_write_to_buf this_shm feat_vect).2 := by
  by_cases h : 1 ≤ this_shm.sem_set APP_IN_READY
  · rw [write_effects_written this_shm feat_vect h]
    simp only [List.foldl_cons, List.foldl_nil, apply_write_effect, shm_wrt_write_to_buf,
      semop_try_acquire, if_pos h]
    rfl
  · rw [write_effects_skipped this_shm feat_vect (by omega),
      write_skipped this_shm feat_vect (by omega)]
    simp only [List.foldl_cons, List.foldl_nil, apply_write_effect, semop_try_acquire, if_neg h]

/-- Every index the scanning loop reads is the cell of channel 0 or of channel
3 of a sample between the current one and the end of the window. -/
theorem blink_scan_reads_mem (signal : Int → ℚ) (dim_i dim_j : Int) :
    ∀ (fuel : Nat) (s : blink_scan_t) (idx : Int),
      idx ∈ blink_scan_reads signal dim_i dim_j fuel s →
      ∃ t : Int, s.time_iter ≤ t ∧ t < dim_i ∧
        (idx = dim_j * t + CHAN_1 ∨ idx = dim_j * t + CHAN_4) := by
  intro fuel
  induction fuel with
  | zero =>
    intro s idx h
    exact absurd h (by simp [blink_scan_reads])
  | succ n ih =>
    intro s idx h
    by_cases hc : s.nb_blink_samples < COUNT_THRESHOLD ∧ s.time_iter < dim_i
    · simp only [blink_scan_reads, if_pos hc, List.mem_cons] at h
      rcases h with h | h | h
      · exact ⟨s.time_iter, le_refl _, hc.2, Or.inl h⟩
      · exact ⟨s.time_iter, le_refl _, hc.2, Or.inr h⟩
      · obtain ⟨t, ht0, ht1, ht2⟩ := ih _ idx h
        rw [(blink_scan_body_spec signal dim_j s).1] at ht0
        exact ⟨t, by omega, ht1, ht2⟩
    · simp only [blink_scan_reads, if_neg hc] at h
      exact absurd h (by simp)

/-- The scanning loop reads both watched cells of every sample it goes over. -/
theorem blink_scan_reads_all (signal : Int → ℚ) (dim_i dim_j : Int) :
    ∀ (fuel : Nat) (s : blink_scan_t) (t : Int),
      s.time_iter ≤ t → t < (blink_scan signal dim_i dim_j fuel s).time_iter →
      dim_j * t + CHAN_1 ∈ blink_scan_reads signal dim_i dim_j fuel s ∧
      dim_j * t + CHAN_4 ∈ blink_scan_reads signal dim_i dim_j fuel s := by
  intro fuel
  induction fuel with
  | zero =>
    intro s t h0 h1
    simp only [blink_scan] at h1
    omega
  | succ n ih =>
    intro s t h0 h1
    by_cases hc : s.nb_blink_samples < COUNT_THRESHOLD ∧ s.time_iter < dim_i
    · simp only [blink_scan, if_pos hc] at h1
      simp only [blink_scan_reads, if_pos hc, List.mem_cons]
      by_cases ht : t = s.time_iter
      · subst ht
        exact ⟨Or.inl rfl, Or.inr (Or.inl rfl)⟩
      · have hb := (blink_scan_body_spec signal dim_j s).1
        obtain ⟨r1, r2⟩ := ih (blink_scan_body signal dim_j s) t (by omega) h1
        exact ⟨Or.inr (Or.inr r1), Or.inr (Or.inr r2)⟩
    · simp only [blink_scan, if_neg hc] at h1
      omega

/-- The scanning loop never moves its counter back. -/
theorem blink_scan_mono (signal : Int → ℚ) (dim_i dim_j : Int) :
    ∀ (fuel : Nat) (s : blink_scan_t),
      s.time_iter ≤ (blink_scan signal dim_i dim_j fuel s).time_iter := by
  intro fuel
  induction fuel with
  | zero =>
    intro s
    exact le_refl _
  | succ n ih =>
    intro s
    by_cases hc : s.nb_blink_samples < COUNT_THRESHOLD ∧ s.time_iter < dim_i
    · simp only [blink_scan, if_pos hc]
      have hb := (blink_scan_body_spec signal dim_j s).1
      have := ih (blink_scan_body signal dim_j s)
      omega
    · simp only [blink_scan, if_neg hc]
      exact le_refl _

/-- The first sample of a window is always scanned when no frame is pending. -/
theorem blink_scan_first (signal : Int → ℚ) (dim_i dim_j : Int) (h : 1 ≤ dim_i) :
    0 < (blink_scan signal dim_i dim_j dim_i.toNat
      { blink_onset_found := false, onset_timestamp := 0, nb_blink_samples := 0,
        time_iter := 0 }).time_iter := by
  obtain ⟨n, hn⟩ : ∃ n : Nat, dim_i.toNat = n + 1 := ⟨dim_i.toNat - 1, by omega⟩
  rw [hn]
  have hc : (0 : Nat) < COUNT_THRESHOLD ∧ (0 : Int) < dim_i := ⟨by decide, by omega⟩
  simp only [blink_scan, if_pos hc]
  have hb := (blink_scan_body_spec signal dim_j
    { blink_onset_found := false, onset_timestamp := 0, nb_blink_samples := 0,
      time_iter := 0 }).1
  have hm := blink_scan_mono signal dim_i dim_j n (blink_scan_body signal dim_j
    { blink_onset_found := false, onset_timestamp := 0, nb_blink_samples := 0,
      time_iter := 0 })
  simp only [] at hb
  omega

/-- C13.  The write cursor is cyclic: for every publisher with
`buffer_depth = d >= 1`, a successful write changes `current_page` from `p` to
`(p + 1) mod d`; after any sequence of events (writes, and activity of the
other processes on the semaphores) of which exactly `m` writes succeeded the
cursor is `(p + m) mod d`; and after `d` successful writes following
`shm_wrt_init` the cursor is 0 again. -/
theorem write_cursor_cyclic (options : shm_output_options_t) (st : shm_output_t)
    (h_pub : is_publisher options st) (h_depth : 1 ≤ options.buffer_depth) :
    (∀ feat_vect : feature_buf_t Int, 1 ≤ st.sem_set APP_IN_READY →
      (shm_wrt_write_to_buf st feat_vect).2.current_page =
        (st.current_page + 1) % options.buffer_depth) ∧
    (∀ events : List publisher_event,
      (publisher_run st events).current_page =
        (st.current_page + (writes_done st events : Int)) % options.buffer_depth) ∧
    (∀ (env : ipc_env) (st0 : shm_output_t) (events : List publisher_event),
      shm_wrt_init options env = some st0 →
      (writes_done st0 events : Int) = options.buffer_depth →
      (publisher_run st0 events).current_page = 0) := by
  have hinv := is_publisher_inv options h_depth st h_pub
  refine ⟨?_, fun events => publisher_run_cursor options h_depth events st hinv, ?_⟩
  · intro feat_vect h_ready
    obtain ⟨h1, _, _, h4, _⟩ := hinv
    have kc := write_cursor st feat_vect (by rw [h1]; exact h_depth) h4
    rw [if_pos h_ready, h1] at kc
    exact kc
  · intro env st0 events h_init h_done
    have hinv0 := shm_wrt_init_inv options h_depth env st0 h_init
    rw [publisher_run_cursor options h_depth events st0 hinv0, h_done,
      (shm_wrt_init_some options env st0 h_init).2.2.2.1]
    simp

/-- C13 at the publisher just initialised with three pages: a successful
write moves the cursor to `(0 + 1) mod 3`. -/
theorem write_cursor_cyclic_witness :
    is_publisher ex_options (ex_publisher ex_options ex_sem_ready) ∧
    1 ≤ ex_options.buffer_depth ∧
    1 ≤ (ex_publisher ex_options ex_sem_ready).sem_set APP_IN_READY ∧
    (shm_wrt_write_to_buf (ex_publisher ex_options ex_sem_ready) (ex_vector 2)).2.current_page =
      ((ex_publisher ex_options ex_sem_ready).current_page + 1) % ex_options.buffer_depth :=
  ⟨⟨ex_env ex_sem_ready, _, [], rfl, rfl⟩, by decide, by decide,
    (write_cursor_cyclic ex_options (ex_publisher ex_options ex_sem_ready)
      ⟨ex_env ex_sem_ready, _, [], rfl, rfl⟩ (by decide)).1 (ex_vector 2) (by decide)⟩

/-- C14.  Publisher invariants: for options with `buffer_depth >= 1`, in every
state reached from `shm_wrt_init` by any sequence of calls of
`shm_wrt_write_to_buf` (written or skipped, any vectors) and of activity of the
other processes on the semaphores, `0 <= current_page < buffer_depth`, and
`page_size` and `total_buffer_size` keep the values computed at init.  Those
values are `page_size = (int)(nb_features*sizeof(double) + frame_status_size)`,
the sum being taken in `size_t`, and `total_buffer_size =
page_size*buffer_depth`; the page size is `frame_status_size + nb_features*8`
when the two sizes are not negative and that sum is at most `INT_MAX`. -/
theorem publisher_invariants (options : shm_output_options_t) (env : ipc_env)
    (st0 : shm_output_t) (events : List publisher_event)
    (h_init : shm_wrt_init options env = some st0) (h_depth : 1 ≤ options.buffer_depth) :
    0 ≤ (publisher_run st0 events).current_page ∧
    (publisher_run st0 events).current_page < options.buffer_depth ∧
    (publisher_run st0 events).page_size = st0.page_size ∧
    (publisher_run st0 events).total_buffer_size = st0.total_buffer_size ∧
    st0.page_size = shm_page_size options ∧
    st0.total_buffer_size = st0.page_size * options.buffer_depth ∧
    (0 ≤ options.nb_features → 0 ≤ options.frame_status_size →
      options.frame_status_size + options.nb_features * 8 ≤ INT_MAX →
      st0.page_size = options.frame_status_size + options.nb_features * 8) := by
  have hinv0 := shm_wrt_init_inv options h_depth env st0 h_init
  obtain ⟨_, h2, h3, h4, h5⟩ := publisher_run_inv options h_depth events st0 hinv0
  obtain ⟨_, g2, g3, _, _⟩ := hinv0
  refine ⟨h4, h5, by rw [h2, g2], by rw [h3, h2, g3, g2], g2, g3, ?_⟩
  intro h_nb h_fss h_range
  rw [g2, shm_page_size_exact options h_nb h_fss (by omega)]
  omega

/-- C14 on a run of two writes with semaphore activity in between. -/
theorem publisher_invariants_witness :
    shm_wrt_init ex_options (ex_env ex_sem_ready) = some (ex_publisher ex_options ex_sem_ready) ∧
    1 ≤ ex_options.buffer_depth ∧
    0 ≤ (publisher_run (ex_publisher ex_options ex_sem_ready)
      [.write (ex_vector 2), .sem_activity ex_sem_two, .write (ex_vector 2)]).current_page ∧
    (publisher_run (ex_publisher ex_options ex_sem_ready)
      [.write (ex_vector 2), .sem_activity ex_sem_two, .write (ex_vector 2)]).current_page <
        ex_options.buffer_depth ∧
    (publisher_run (ex_publisher ex_options ex_sem_ready)
      [.write (ex_vector 2), .sem_activity ex_sem_two, .write (ex_vector 2)]).page_size =
        (ex_publisher ex_options ex_sem_ready).page_size ∧
    (publisher_run (ex_publisher ex_options ex_sem_ready)
      [.write (ex_vector 2), .sem_activity ex_sem_two, .write (ex_vector 2)]).total_buffer_size =
        (ex_publisher ex_options ex_sem_ready).total_buffer_size ∧
    (ex_publisher ex_options ex_sem_ready).page_size = shm_page_size ex_options ∧
    (ex_publisher ex_options ex_sem_ready).total_buffer_size =
      (ex_publisher ex_options ex_sem_ready).page_size * ex_options.buffer_depth ∧
    (ex_publisher ex_options ex_sem_ready).page_size =
      ex_options.frame_status_size + ex_options.nb_features * 8 :=
  have h := publisher_invariants ex_options (ex_env ex_sem_ready)
    (ex_publisher ex_options ex_sem_ready)
    [.write (ex_vector 2), .sem_activity ex_sem_two, .write (ex_vector 2)] rfl (by decide)
  ⟨rfl, by decide, h.1, h.2.1, h.2.2.1, h.2.2.2.1, h.2.2.2.2.1, h.2.2.2.2.2.1,
    h.2.2.2.2.2.2 (by decide) (by decide) (by decide)⟩

/-- C18.  Write-then-post ordering: the effects of `shm_wrt_write_to_buf`, taken
in the order of its statements, give the publisher that the function returns;
whenever one of them is a post on the output-ready semaphore (index 2), the
copy of the frame status and the copy of the feature array come before it, no
copy comes after it, and the segment already holds its final content when the
post is made; a successful call ends with that post, and a skipped call makes
no post. -/
theorem write_then_post (this_shm : shm_output_t) (feat_vect : feature_buf_t Int) :
    (shm_wrt_write_effects this_shm feat_vect).foldl apply_write_effect this_shm =
      (shm_wrt_write_to_buf this_shm feat_vect).2 ∧
    (∀ (pre : List write_effect) (e : write_effect) (post : List write_effect),
      shm_wrt_write_effects this_shm feat_vect = pre ++ e :: post → is_post e →
      write_effect.copy (this_shm.page_size * this_shm.current_page)
          (frame_info_bytes feat_vect.frame_status) sizeof_frame_info_t ∈ pre ∧
      write_effect.copy (this_shm.page_size * this_shm.current_page + sizeof_frame_info_t)
          feat_vect.featvect_ptr (to_size_t (to_size_t feat_vect.nb_features * sizeof_double)) ∈ pre ∧
      (∀ e2 ∈ post, ¬ is_copy e2) ∧
      (pre.foldl apply_write_effect this_shm).shm_buf =
        (shm_wrt_write_to_buf this_shm feat_vect).2.shm_buf) ∧
    (1 ≤ this_shm.sem_set APP_IN_READY →
      ∃ (pre : List write_effect) (e : write_effect),
        shm_wrt_write_effects this_shm feat_vect = pre ++ [e] ∧ is_post e) := by
  refine ⟨write_effects_sound this_shm feat_vect, ?_, ?_⟩
  · intro pre e post hsplit hpost
    by_cases h : 1 ≤ this_shm.sem_set APP_IN_READY
    · rw [write_effects_written this_shm feat_vect h] at hsplit
      rcases pre with _ | ⟨a1, pre⟩
      · simp only [List.nil_append, List.cons.injEq] at hsplit
        obtain ⟨he, _⟩ := hsplit
        subst he
        exact absurd hpost (by simp [is_post, APP_IN_READY, PREPROC_OUT_READY])
      rcases pre with _ | ⟨a2, pre⟩
      · simp only [List.cons_append, List.nil_append, List.cons.injEq] at hsplit
        obtain ⟨_, he, _⟩ := hsplit
        subst he
        exact absurd hpost (by simp [is_post])
      rcases pre with _ | ⟨a3, pre⟩
      · simp only [List.cons_append, List.nil_append, List.cons.injEq] at hsplit
        obtain ⟨_, _, he, _⟩ := hsplit
        subst he
        exact absurd hpost (by simp [is_post])
      rcases pre with _ | ⟨a4, pre⟩
      · simp only [List.cons_append, List.nil_append, List.cons.injEq] at hsplit
        obtain ⟨_, _, _, he, _⟩ := hsplit
        subst he
        exact absurd hpost (by simp [is_post])
      rcases pre with _ | ⟨a5, pre⟩
      · simp only [List.cons_append, List.nil_append, List.cons.injEq] at hsplit
        obtain ⟨_, _, _, _, he, _⟩ := hsplit
        subst he
        exact absurd hpost (by simp [is_post])
      rcases pre with _ | ⟨a6, pre⟩
      · simp only [List.cons_append, List.nil_append, List.cons.injEq] at hsplit
        obtain ⟨h1, h2, h3, h4, h5, _, h7⟩ := hsplit
        subst h1 h2 h3 h4 h5 h7
        refine ⟨by simp, by simp, by simp, ?_⟩
        rw [write_written this_shm feat_vect h]
        rfl
      · simp at hsplit
    · rw [write_effects_skipped this_shm feat_vect (by omega)] at hsplit
      rcases pre with _ | ⟨a1, pre⟩
      · simp only [List.nil_append, List.cons.injEq] at hsplit
        obtain ⟨he, _⟩ := hsplit
        subst he
        exact absurd hpost (by simp [is_post, APP_IN_READY, PREPROC_OUT_READY])
      · simp at hsplit
  · intro h
    rw [write_effects_written this_shm feat_vect h]
    exact ⟨[ .sem_call { sem_num := APP_IN_READY, sem_op := -1, sem_flg := IPC_NOWAIT },
        .copy (this_shm.page_size * this_shm.current_page)
          (frame_info_bytes feat_vect.frame_status) sizeof_frame_info_t,
        .copy (this_shm.page_size * this_shm.current_page + sizeof_frame_info_t)
          feat_vect.featvect_ptr (to_size_t (to_size_t feat_vect.nb_features * sizeof_double)),
        .set_page (this_shm.current_page + 1),
        .set_page ((this_shm.current_page + 1).tmod this_shm.options.buffer_depth) ],
      .sem_call
        { sem_num := PREPROC_OUT_READY, sem_op := 1, sem_flg := Int.lor SEM_UNDO IPC_NOWAIT },
      rfl, by simp [is_post]⟩

/-- C18 at a successful call: the last effect is the post. -/
theorem write_then_post_witness :
    1 ≤ (ex_publisher ex_options ex_sem_ready).sem_set APP_IN_READY ∧
    ∃ (pre : List write_effect) (e : write_effect),
      shm_wrt_write_effects (ex_publisher ex_options ex_sem_ready) (ex_vector 2) = pre ++ [e] ∧
      is_post e :=
  ⟨by decide,
    (write_then_post (ex_publisher ex_options ex_sem_ready) (ex_vector 2)).2.2 (by decide)⟩

/-- C15 as stated fails: called on an engine left with two frames to flag,
`init_preprocess_core` returns an engine that still has two frames to flag. -/
theorem init_keeps_pending_blink :
    ex_core_carrying.next_frame_has_blink = 2 ∧
    (init_preprocess_core ex_config_blink ex_core_carrying (fun _ => 0) (fun _ => 0) (fun _ => 0)
      (fun _ => 0)).2.next_frame_has_blink = 2 := by
  decide

/-- C15, amended.  `init_preprocess_core` leaves `next_frame_has_blink` as it
was, for every config and every engine state before the call; the counter is 0
after the call when the state before is the one of the program start, where the
file-scope initialiser has set it to 0. -/
theorem init_blink_counter :
    (∀ (config : appconfig_t) (st : preprocess_core_t)
        (m_avg m_wo_avg m_transposed m_dft : Int → ℚ),
      (init_preprocess_core config st m_avg m_wo_avg m_transposed m_dft).2.next_frame_has_blink =
        st.next_frame_has_blink) ∧
    (∀ (config : appconfig_t) (m_avg m_wo_avg m_transposed m_dft : Int → ℚ),
      (init_preprocess_core config preprocess_core_start m_avg m_wo_avg m_transposed
        m_dft).2.next_frame_has_blink = 0) :=
  ⟨fun _ _ _ _ _ _ => rfl, fun _ _ _ _ _ => rfl⟩

/-- C19 as stated fails: with one channel and windows of 3 samples, scanned
from IDLE, the scan of sample 0 (not the last sample) reads index 3, which is
at `W*C = 3`, outside the window, and not the cell of a later sample. -/
theorem blink_scan_one_channel :
    (1 : Int) ≤ 3 ∧ (ex_core ex_config_mono).next_frame_has_blink = 0 ∧
    (ex_core ex_config_mono).nb_samples = 3 ∧ (ex_core ex_config_mono).nb_channels = 1 ∧
    (0 : Int) < 3 - 1 ∧
    (1 : Int) * 0 + 3 ∈ has_eye_blink_reads (ex_core ex_config_mono) ex_signal_quiet 3 1 ∧
    (3 : Int) * 1 ≤ 1 * 0 + 3 ∧
    ¬ ∃ t2 c2 : Int, 0 < t2 ∧ t2 < 3 ∧ 0 ≤ c2 ∧ c2 < 1 ∧ (1 : Int) * 0 + 3 = 1 * t2 + c2 := by
  refine ⟨by decide, rfl, rfl, rfl, by decide, by decide, by decide, ?_⟩
  rintro ⟨t2, c2, h1, h2, h3, h4, h5⟩
  omega

/-- C19, amended.  For a window of `W >= 1` samples by `C` channels scanned
from IDLE with `dim_i = W` and `dim_j = C`: when `C >= 4` every index read is in
`[0, W*C)`; when `C <= 3` a scan that goes over the last sample reads index
`C*(W-1) + 3 >= W*C`, outside the window; when `2 <= C <= 3` the scan of an
earlier sample `t` reads index `C*t + 3 = C*(t+1) + (3-C)`, the cell of channel
`3 - C` of the next sample; when `C = 1` the scan of sample `t` reads index
`t + 3`, the cell of sample `t + 3`, which is inside the window only when
`t + 3 < W`. -/
theorem blink_scan_window_bounds (st : preprocess_core_t) (signal : Int → ℚ) (W C : Int)
    (hW : 1 ≤ W) (h_idle : st.next_frame_has_blink = 0) :
    (4 ≤ C → ∀ idx ∈ has_eye_blink_reads st signal W C, 0 ≤ idx ∧ idx < W * C) ∧
    (C ≤ 3 →
      W - 1 < (blink_scan signal W C W.toNat
        { blink_onset_found := false, onset_timestamp := 0, nb_blink_samples := 0,
          time_iter := 0 }).time_iter →
      C * (W - 1) + 3 ∈ has_eye_blink_reads st signal W C ∧ W * C ≤ C * (W - 1) + 3) ∧
    (2 ≤ C → C ≤ 3 → ∀ t : Int, 0 ≤ t → t < W - 1 →
      t < (blink_scan signal W C W.toNat
        { blink_onset_found := false, onset_timestamp := 0, nb_blink_samples := 0,
          time_iter := 0 }).time_iter →
      C * t + 3 ∈ has_eye_blink_reads st signal W C ∧
      C * t + 3 = C * (t + 1) + (3 - C) ∧ 0 ≤ 3 - C ∧ 3 - C < C ∧ t + 1 < W) ∧
    (C = 1 → ∀ t : Int, 0 ≤ t →
      t < (blink_scan signal W C W.toNat
        { blink_onset_found := false, onset_timestamp := 0, nb_blink_samples := 0,
          time_iter := 0 }).time_iter →
      C * t + 3 ∈ has_eye_blink_reads st signal W C ∧
      C * t + 3 = C * (t + 3) + 0 ∧ (t + 3 < W ↔ C * t + 3 < W * C)) := by
  have hreads : has_eye_blink_reads st signal W C =
      blink_scan_reads signal W C W.toNat
        { blink_onset_found := false, onset_timestamp := 0, nb_blink_samples := 0,
          time_iter := 0 } := by
    simp [has_eye_blink_reads, h_idle]
  have hall : ∀ t : Int, 0 ≤ t →
      t < (blink_scan signal W C W.toNat
        { blink_onset_found := false, onset_timestamp := 0, nb_blink_samples := 0,
          time_iter := 0 }).time_iter →
      C * t + 3 ∈ has_eye_blink_reads st signal W C := by
    intro t ht0 ht1
    rw [hreads]
    exact (blink_scan_reads_all signal W C W.toNat _ t ht0 ht1).2
  refine ⟨?_, ?_, ?_, ?_⟩
  · intro hC idx hidx
    rw [hreads] at hidx
    obtain ⟨t, ht0, ht1, hcase⟩ := blink_scan_reads_mem signal W C W.toNat _ idx hidx
    simp only [CHAN_1, CHAN_4] at ht0 hcase
    have h1 : 0 ≤ C * t := Int.mul_nonneg (by omega) ht0
    have h2 : C * (t + 1) ≤ C * W := Int.mul_le_mul_of_nonneg_left (by omega) (by omega)
    have h3 : C * (t + 1) = C * t + C := by ring
    have h4 : W * C = C * W := Int.mul_comm W C
    rcases hcase with h | h <;> omega
  · intro hC hlast
    refine ⟨hall (W - 1) (by omega) hlast, ?_⟩
    have h3 : C * (W - 1) = W * C - C := by ring
    omega
  · intro hC2 hC3 t ht0 ht1 hscan
    refine ⟨hall t ht0 hscan, by ring, by omega, by omega, by omega⟩
  · intro hC1 t ht0 hscan
    subst hC1
    refine ⟨hall t ht0 hscan, by ring, ?_⟩
    constructor <;> intro h <;> omega

/-- C19, amended, at a quiet window of 4 samples by 4 channels: every index
read is inside. -/
theorem blink_scan_window_bounds_witness :
    (1 : Int) ≤ 4 ∧ (ex_core ex_config_blink).next_frame_has_blink = 0 ∧ (4 : Int) ≤ 4 ∧
    has_eye_blink_reads (ex_core ex_config_blink) ex_signal_quiet 4 4 =
      [0, 3, 4, 7, 8, 11, 12, 15] ∧
    ∀ idx ∈ has_eye_blink_reads (ex_core ex_config_blink) ex_signal_quiet 4 4,
      0 ≤ idx ∧ idx < 4 * 4 :=
  ⟨by decide, rfl, by decide, by decide,
    (blink_scan_window_bounds (ex_core ex_config_blink) ex_signal_quiet 4 4 (by decide) rfl).1
      (by decide)⟩

end DataPreprocessing
